import Mathlib

/-!
The prompt layer of clink, `src/clink/dll/prompt.cpp`.

A shallow embedding of the prompt transformation code.

Conventions of the embedding.

* Memory reached through a `char*` / `wchar_t*` is a `List Nat` of character
  codes, indexed from the start of the allocation; a pointer is an index into
  it.  A read beyond the end of the list yields `0`: the buffers of this
  program are NUL-terminated strings followed by nothing the code looks at.
* `int` is `Int`; none of the arithmetic of this file can overflow for
  buffers of the sizes used (`0x4000`), and the length of a string is taken
  to fit in an `int`.  A count that the caller of `prompt::set` passes is any
  `int`: `prompt.set_int` makes the limits of that method explicit.
* A function that rewrites memory in place returns the new memory next to
  its C return value.
-/

namespace Clink

/-! ## Character constants -/

/-- The backspace character, written `'\b'` in the source. -/
def BS : Nat := 8

/-! ## Plain C strings -/

/-- The NUL-terminated string found at pointer `p` of `mem`, without its
terminator. -/
def cstr (mem : List Nat) (p : Nat) : List Nat :=
  (mem.drop p).takeWhile (fun c => c != 0)

/-- Function `strlen` of the C library. -/
def strlen (mem : List Nat) (p : Nat) : Nat := (cstr mem p).length

/-! ## `parse_backspaces` (prompt.cpp, lines 40-68) -/

/-- The `while` loop of `parse_backspaces`.  The first argument is the
distance `(prompt + n) - read`, which is what the loop counts down: the test
`read < (prompt + n)` holds exactly when it is positive.  `read` and `write`
are the two cursors, as indices into `mem`. -/
def parse_backspaces_loop (prompt : Nat) : Nat → List Nat → Nat → Nat → List Nat × Nat
  | 0, mem, _, write => (mem, write)
  | k + 1, mem, read, write =>
    if mem.getD read 0 = 0 then (mem, write)
    else if mem.getD read 0 = BS then
      parse_backspaces_loop prompt k mem (read + 1)
        (if write > prompt then write - 1 else write)
    else
      parse_backspaces_loop prompt k (mem.set write (mem.getD read 0)) (read + 1) (write + 1)

/-- Function `parse_backspaces(char* prompt, int n)`: returns the rewritten
memory and `(int)(write - prompt)`. -/
def parse_backspaces (mem : List Nat) (prompt : Nat) (n : Int) : List Nat × Int :=
  let r := parse_backspaces_loop prompt n.toNat mem prompt prompt
  (r.1, (r.2 : Int) - (prompt : Int))

/-- The loop of `parse_backspaces` with two ghost counters added and nothing
else changed: `deleted` counts the executions of `--write` (a backspace that
deleted a byte written before), `absorbed` the backspaces met while
`write == prompt` (for which the guard `write > prompt` fails). -/
def parse_backspaces_counted (prompt : Nat) :
    Nat → List Nat → Nat → Nat → Nat → Nat → (List Nat × Nat) × (Nat × Nat)
  | 0, mem, _, write, deleted, absorbed => ((mem, write), (deleted, absorbed))
  | k + 1, mem, read, write, deleted, absorbed =>
    if mem.getD read 0 = 0 then ((mem, write), (deleted, absorbed))
    else if mem.getD read 0 = BS then
      if write > prompt then
        parse_backspaces_counted prompt k mem (read + 1) (write - 1) (deleted + 1) absorbed
      else
        parse_backspaces_counted prompt k mem (read + 1) write deleted (absorbed + 1)
    else
      parse_backspaces_counted prompt k (mem.set write (mem.getD read 0)) (read + 1)
        (write + 1) deleted absorbed

/-- Number of backspaces that deleted a byte during
`parse_backspaces(prompt, n)`. -/
def deleting_backspaces (mem : List Nat) (prompt : Nat) (n : Int) : Nat :=
  (parse_backspaces_counted prompt n.toNat mem prompt prompt 0 0).2.1

/-- Number of backspaces dropped at the start of the span during
`parse_backspaces(prompt, n)`. -/
def absorbed_backspaces (mem : List Nat) (prompt : Nat) (n : Int) : Nat :=
  (parse_backspaces_counted prompt n.toNat mem prompt prompt 0 0).2.2

/-- The reference reading of backspace resolution: one step of the stack
scan.  A backspace removes the last byte kept so far (nothing, when nothing
is kept); any other byte is appended. -/
def stack_step (kept : List Nat) (c : Nat) : List Nat :=
  if c = BS then kept.dropLast else kept ++ [c]

/-- The reference stack fold over a span of bytes. -/
def stack_fold (s : List Nat) : List Nat := s.foldl stack_step []

/-- The bytes that `parse_backspaces(buf, n)` reads: those of the first `n`
that come before the first NUL. -/
def read_span (buf : List Nat) (n : Int) : List Nat :=
  (buf.take n.toNat).takeWhile (fun c => c != 0)

/-! ## `filter_prompt` (prompt.cpp, lines 71-118)

Three functions that `filter_prompt` calls are declared but not defined in
the sources: the string helpers `str_cat` / `str_cat_n` of `shared/util.h`,
the scripting hook `lua_filter_prompt` and the scanner
`find_next_ansi_code`.  The helpers are modelled from the specification; the
hook and the scanner are parameters of the embedding. -/

/-- Constant `buf_size` of `filter_prompt`. -/
def buf_size : Int := 0x4000

/-- Modelled from the spec: `str_cat(dest, src, n)` of `shared/util.h`, which
is not among the sources.  It appends the string at `src` to the string in
`dest`, "bounded by capacity" `n`: the terminated result never exceeds `n`
bytes, and what does not fit is silently left out.  `dest` is the destination
buffer, `mem` and `p` the memory and pointer of the source. -/
def str_cat (dest : List Nat) (mem : List Nat) (p : Nat) (n : Int) : List Nat :=
  cstr dest 0 ++ (cstr mem p).take (n - 1 - (strlen dest 0 : Int)).toNat

/-- Modelled from the spec: `str_cat_n(dest, src, n, m)` of `shared/util.h`,
which is not among the sources: "append is a truncating copy of exactly the
resolved length" `m`, "bounded by capacity" `n`. -/
def str_cat_n (dest : List Nat) (mem : List Nat) (p : Nat) (n : Int) (m : Int) : List Nat :=
  cstr dest 0 ++ ((mem.drop p).take m.toNat).take (n - 1 - (strlen dest 0 : Int)).toNat

/-- The two marker strings `tags[] = { "\001", "\002" }`. -/
def tags : List (List Nat) := [[1], [2]]

/-- The `while (*next)` loop of `filter_prompt`.  The first argument bounds
the number of times the loop body may run; `none` means that the bound was
reached with `*next` still not NUL.  `scan` stands for
`find_next_ansi_code`: it is given the string at the cursor and returns the
distance from the cursor to the escape sequence it found together with the
size of that sequence. -/
def filter_prompt_loop (scan : List Nat → Nat × Nat) :
    Nat → List Nat → List Nat → Nat → Option (List Nat)
  | 0, lua_prompt, out_prompt, next =>
    if lua_prompt.getD next 0 = 0 then some out_prompt else none
  | fuel + 1, lua_prompt, out_prompt, next =>
    if lua_prompt.getD next 0 = 0 then some out_prompt
    else
      let found := scan (cstr lua_prompt next)
      let ansi_code : Nat := next + found.1
      let ansi_size : Int := (found.2 : Int)
      let r1 := parse_backspaces lua_prompt next ((ansi_code : Int) - (next : Int))
      let out1 := str_cat_n out_prompt r1.1 next buf_size r1.2
      if r1.1.getD ansi_code 0 ≠ 0 then
        let r2 := parse_backspaces r1.1 ansi_code ansi_size
        let out2 := str_cat out1 (tags.getD 0 []) 0 buf_size
        let out3 := str_cat_n out2 r2.1 ansi_code buf_size r2.2
        let out4 := str_cat out3 (tags.getD 1 []) 0 buf_size
        filter_prompt_loop scan fuel r2.1 out4 (ansi_code + found.2)
      else
        filter_prompt_loop scan fuel r1.1 out1 (ansi_code + found.2)

/-- Function `filter_prompt(const char* in_prompt)`.  `hook` stands for
`lua_filter_prompt(lua_prompt, buf_size)`: it maps the scratch buffer to its
rewritten content.  The result is the content of `out_prompt`. -/
def filter_prompt (hook : List Nat → Int → List Nat) (scan : List Nat → Nat × Nat)
    (fuel : Nat) (in_prompt : List Nat) : Option (List Nat) :=
  let lua_prompt := str_cat [] in_prompt 0 buf_size
  let lua_prompt := hook lua_prompt buf_size
  filter_prompt_loop scan fuel lua_prompt [] 0

/-- The longest string that a buffer of `buf_size` bytes holds next to its
terminator. -/
def capacity : Nat := (buf_size - 1).toNat

/-- The hook that leaves the scratch buffer as it is. -/
def hook_id (lua_prompt : List Nat) (_ : Int) : List Nat := lua_prompt

/-- The backspace-resolved form of a span taken alone: `parse_backspaces` run
on a buffer holding just that span, cut at the returned length. -/
def resolve (s : List Nat) : List Nat :=
  (parse_backspaces s 0 (s.length : Int)).1.take
    (parse_backspaces s 0 (s.length : Int)).2.toNat

/-- The prompt made of the plain spans and escape sequences
`p0 e1 p1 ... ek pk`: `segs` lists the pairs `(p0, e1), ..., (p(k-1), ek)` and
`last` is `pk`. -/
def assemble : List (List Nat × List Nat) → List Nat → List Nat
  | [], last => last
  | (p, e) :: rest, last => p ++ (e ++ assemble rest last)

/-- The scanner splits the prompt as `p0 e1 p1 ... ek pk`: at each cursor
position that the loop visits it reports the next escape sequence, and after
the last one it reports "none remaining" (the terminator position, size 0). -/
def SplitsAs (scan : List Nat → Nat × Nat) : List (List Nat × List Nat) → List Nat → Prop
  | [], last => last ≠ [] → scan last = (last.length, 0)
  | (p, e) :: rest, last =>
    e ≠ [] ∧ scan (p ++ (e ++ assemble rest last)) = (p.length, e.length) ∧
      SplitsAs scan rest last

/-- The wrapped form `R(p0) 0x01 R(e1) 0x02 R(p1) ... 0x01 R(ek) 0x02 R(pk)`. -/
def wrapped : List (List Nat × List Nat) → List Nat → List Nat
  | [], last => resolve last
  | (p, e) :: rest, last => resolve p ++ ([1] ++ (resolve e ++ ([2] ++ wrapped rest last)))

instance (scan : List Nat → Nat × Nat) :
    ∀ (segs : List (List Nat × List Nat)) (last : List Nat), Decidable (SplitsAs scan segs last)
  | [], last => by
    unfold SplitsAs
    infer_instance
  | (p, e) :: rest, last => by
    unfold SplitsAs
    have := instDecidableSplitsAs scan rest last
    infer_instance

/-- A list without invisible-span markers (`0x01`, `0x02`). -/
def NoMarker (s : List Nat) : Prop := ∀ c ∈ s, c ≠ 1 ∧ c ≠ 2

instance (s : List Nat) : Decidable (NoMarker s) := by
  unfold NoMarker
  infer_instance

/-- Reads a string as plain bytes and bracketed spans `0x01 body 0x02`, and
returns the bodies in order.  The first argument is the body of the span
that is open, if any.  The result is `none` when the markers are not
balanced: an end marker outside a span, a start marker inside one, or a span
left open at the end. -/
def bracket_bodies : Option (List Nat) → List Nat → Option (List (List Nat))
  | none, [] => some []
  | some _, [] => none
  | none, c :: rest =>
    if c = 1 then bracket_bodies (some []) rest
    else if c = 2 then none
    else bracket_bodies none rest
  | some body, c :: rest =>
    if c = 2 then (bracket_bodies none rest).map (fun l => body :: l)
    else if c = 1 then none
    else bracket_bodies (some (body ++ [c])) rest

/-- The string `"a\ba\b...a\b"` of `n` pairs. -/
def ab_run : Nat → List Nat
  | 0 => []
  | n + 1 => 97 :: 8 :: ab_run n

/-- A scanner for the examples: an escape sequence starts at the first ESC
(27) and runs up to and including the next `m` (109), or up to the end of the
string when there is none. -/
def scan_sgr (s : List Nat) : Nat × Nat :=
  let off := (s.takeWhile (fun c => c != 27)).length
  let rest := s.drop off
  if rest = [] then (s.length, 0)
  else
    let body := rest.takeWhile (fun c => c != 109)
    (off, min (body.length + 1) rest.length)

/-- A list without NUL bytes. -/
def NoNul (s : List Nat) : Prop := ∀ c ∈ s, c ≠ 0

instance (s : List Nat) : Decidable (NoNul s) := by
  unfold NoNul
  infer_instance

/-! ## Wide strings (C library) -/

/-- Function `wcslen` of the C library. -/
def wcslen (chars : List Nat) : Nat := (cstr chars 0).length

/-- Function `wcsncpy(dest, src, n)`: the `n` characters that it writes, the
string at `src` cut at `n` or padded with NULs up to `n`. -/
def wcsncpy (src : List Nat) (n : Nat) : List Nat :=
  (cstr src 0).take n ++ List.replicate (n - wcslen src) 0

/-- Function `wcscpy(dest, src)`: the string and its terminator. -/
def wcscpy (src : List Nat) : List Nat := cstr src 0 ++ [0]

/-- Function `wcscat(dest, src)`: the string of `dest`, the string at `src`
and the terminator. -/
def wcscat (dest src : List Nat) : List Nat := cstr dest 0 ++ (cstr src 0 ++ [0])

/-- Lexicographic comparison of two runs of characters: negative, zero or
positive. -/
def lex_cmp : List Nat → List Nat → Int
  | [], [] => 0
  | [], _ :: _ => -1
  | _ :: _, [] => 1
  | x :: xs, y :: ys => if x < y then -1 else if y < x then 1 else lex_cmp xs ys

/-- Function `wcsncmp(a, b, n)`: compares at most `n` characters of the two
strings, terminators included. -/
def wcsncmp (a b : List Nat) (n : Nat) : Int :=
  lex_cmp ((cstr a 0 ++ [0]).take n) ((cstr b 0 ++ [0]).take n)

/-! ## `prompt` and `tagged_prompt` (prompt.cpp, lines 33-37 and 123-238) -/

/-- Constant `g_prompt_tag`, `L"@CLINK_PROMPT"`. -/
def g_prompt_tag : List Nat := [64, 67, 76, 73, 78, 75, 95, 80, 82, 79, 77, 80, 84]

/-- Constant `g_prompt_tag_hidden`, `MR("C") MR("L") MR("I") MR("N") MR("K")
MR(" ")` with `MR(x)` being `x` followed by a backspace. -/
def g_prompt_tag_hidden : List Nat := [67, 8, 76, 8, 73, 8, 78, 8, 75, 8, 32, 8]

/-- Constant `g_prompt_tags`. -/
def g_prompt_tags : List (List Nat) := [g_prompt_tag_hidden, g_prompt_tag]

/-- Modelled from the spec: the default value of the parameter `char_count`
of `prompt::set` and `tagged_prompt::is_tagged`, which is declared in
`prompt.h`, not among the sources.  The one-argument calls of the source
take the "implicit length" path (`char_count <= 0`). -/
def default_char_count : Int := 0

/-- Class `prompt`: `m_data` is `none` for `nullptr`, otherwise the
allocated buffer. -/
structure prompt where
  m_data : Option (List Nat)
deriving DecidableEq, Repr

/-- Class `tagged_prompt` derives from `prompt` and adds no member. -/
abbrev tagged_prompt := prompt

/-- Method `prompt::clear`. -/
def prompt.clear (_ : prompt) : prompt := { m_data := none }

/-- Method `prompt::get`. -/
def prompt.get (self : prompt) : Option (List Nat) := self.m_data

/-- Method `prompt::is_set`. -/
def prompt.is_set (self : prompt) : Bool := self.m_data != none

/-- Method `prompt::set(chars, char_count)`; `chars` is `none` for
`nullptr`.  This is the method inside the limits of the machine: the count
used is below `INT_MAX` and `malloc` returns a buffer.  `prompt.set_int`
states the same method with both limits. -/
def prompt.set (self : prompt) (chars : Option (List Nat)) (char_count : Int) : prompt :=
  let self := self.clear
  match chars with
  | none => self
  | some chars =>
    let char_count : Int := if char_count ≤ 0 then (wcslen chars : Int) else char_count
    { m_data := some (wcsncpy chars char_count.toNat ++ [0]) }

/-- The largest `int`. -/
def INT_MAX : Int := 2147483647

/-- Method `prompt::set(chars, char_count)` with the limits of the machine.
`malloc k` tells whether the allocator returns a buffer for `k` characters.
The result is `none` when the call has no defined result: `char_count + 1`
(line 175) leaves the range of `int`, or `malloc` returns null, which the
method does not test before `wcsncpy` and `m_data[char_count] = 0` write
through it. -/
def prompt.set_int (malloc : Nat → Bool) (self : prompt) (chars : Option (List Nat))
    (char_count : Int) : Option prompt :=
  let self := self.clear
  match chars with
  | none => some self
  | some chars =>
    let char_count : Int := if char_count ≤ 0 then (wcslen chars : Int) else char_count
    if char_count + 1 > INT_MAX then none
    else if malloc (char_count + 1).toNat = false then none
    else some { m_data := some (wcsncpy chars char_count.toNat ++ [0]) }

/-- The `for` loop of `tagged_prompt::is_tagged` over the accepted tags. -/
def is_tagged_loop (chars : List Nat) (char_count : Int) : List (List Nat) → Int
  | [] => 0
  | tag :: rest =>
    let tag_length : Int := (wcslen tag : Int)
    if tag_length > char_count then is_tagged_loop chars char_count rest
    else if wcsncmp chars tag tag_length.toNat = 0 then tag_length
    else is_tagged_loop chars char_count rest

/-- Method `tagged_prompt::is_tagged(chars, char_count)`. -/
def tagged_prompt.is_tagged (chars : List Nat) (char_count : Int) : Int :=
  let char_count : Int := if char_count ≤ 0 then (wcslen chars : Int) else char_count
  is_tagged_loop chars char_count g_prompt_tags

/-- Method `tagged_prompt::tag(value)`. -/
def tagged_prompt.tag (self : tagged_prompt) (value : List Nat) : tagged_prompt :=
  let self := self.clear
  if tagged_prompt.is_tagged value default_char_count ≠ 0 then
    self.set (some value) default_char_count
  else
    { m_data := some (wcscat (wcscpy g_prompt_tag_hidden) value) }

/-- Method `tagged_prompt::set(chars, char_count)`; `chars + tag_length` is
the memory from index `tag_length` on. -/
def tagged_prompt.set (self : tagged_prompt) (chars : List Nat) (char_count : Int) :
    tagged_prompt :=
  let self := self.clear
  let tag_length : Int := tagged_prompt.is_tagged chars char_count
  if tag_length ≠ 0 then
    prompt.set self (some (chars.drop tag_length.toNat)) (char_count - tag_length)
  else
    self

/-- A call made on a `tagged_prompt`. -/
inductive tagged_call where
  | set (chars : List Nat) (char_count : Int)
  | tag (value : List Nat)
deriving DecidableEq, Repr

/-- The state after one call. -/
def tagged_prompt.call (self : tagged_prompt) : tagged_call → tagged_prompt
  | tagged_call.set chars char_count => tagged_prompt.set self chars char_count
  | tagged_call.tag value => tagged_prompt.tag self value

/-- The state reached from the empty value of the constructor
(`m_data(nullptr)`) by a sequence of calls. -/
def tagged_prompt.run (calls : List tagged_call) : tagged_prompt :=
  calls.foldl tagged_prompt.call { m_data := none }

/-! ## `prompt_utils::extract_from_console` (prompt.cpp, lines 243-271) -/

/-- What the console answers to the two queries of `extract_from_console`.
`info` is the result of `GetConsoleScreenBufferInfo`: `none` for `FALSE`,
otherwise `csbi.dwCursorPosition.X` (a `SHORT`).  `read` is the result of
`ReadConsoleOutputCharacterW`: `none` for failure, otherwise the characters
that it stored in `buffer`, `chars_in` being their number. -/
structure console where
  info : Option Int
  read : Option (List Nat)
deriving DecidableEq, Repr

/-- Function `prompt_utils::extract_from_console()`.  `length` is the
cursor column converted to `unsigned int`; `buffer` starts as 256 zeros. -/
def extract_from_console (con : console) : prompt :=
  match con.info with
  | none => { m_data := none }
  | some X =>
    let length : Nat := (X % 2 ^ 32).toNat
    let buffer : List Nat := List.replicate 256 0
    if length ≥ 256 then { m_data := none }
    else
      match con.read with
      | none => { m_data := none }
      | some chars =>
        let chars_in : Nat := chars.length
        let buffer := chars ++ buffer.drop chars_in
        let buffer := buffer.set chars_in 0
        let ret : prompt := { m_data := none }
        ret.set (some buffer) default_char_count

/-! ## `host::filter_prompt` (host.cpp, lines 124-146) -/

/-- Outcome of the protected call of the Lua function `clink.filter_prompt`:
`lua_pcall` returned non-zero and left a message on the stack, or it
returned zero and left the filtered prompt. -/
inductive pcall_result where
  | failed (message : List Nat)
  | ok (prompt : List Nat)
deriving DecidableEq, Repr

/-- Method `host::filter_prompt(in, out)`.  The macro `MODE4` is defined
outside the sources and is a parameter, and so are the Lua call `pcall` and
the assignment `out = prompt` of `str_base`.  The state is the caller's `out`
and the lines written to the standard output by `puts`. -/
def host.filter_prompt (MODE4 : Bool) (pcall : List Nat → pcall_result)
    (assign : List Nat → List Nat) (in_prompt : List Nat)
    (out : List Nat) (stdout : List (List Nat)) : List Nat × List (List Nat) :=
  if MODE4 then
    match pcall in_prompt with
    | pcall_result.failed message => (out, stdout ++ [message])
    | pcall_result.ok prompt => (assign prompt, stdout)
  else
    (out, stdout)

/-- The contract of the escape-sequence scanner (section 4.2), for a cursor
on a non-empty string `s`: the position returned is inside the string; a
sequence found has a positive size and lies inside the string; "none
remaining" is the terminator position with size 0. -/
def ScannerContract (scan : List Nat → Nat × Nat) : Prop :=
  ∀ s : List Nat, NoNul s → s ≠ [] →
    (scan s).1 + (scan s).2 ≤ s.length ∧ ((scan s).2 = 0 → (scan s).1 = s.length)

/-- The loop of `filter_prompt` with one ghost counter added and nothing else
changed: `iterations` counts the runs of the loop body.  At the exit it
returns the output, the cursor `next` and the counter. -/
def filter_prompt_loop_counted (scan : List Nat → Nat × Nat) :
    Nat → List Nat → List Nat → Nat → Nat → Option (List Nat × Nat × Nat)
  | 0, lua_prompt, out_prompt, next, iterations =>
    if lua_prompt.getD next 0 = 0 then some (out_prompt, next, iterations) else none
  | fuel + 1, lua_prompt, out_prompt, next, iterations =>
    if lua_prompt.getD next 0 = 0 then some (out_prompt, next, iterations)
    else
      let found := scan (cstr lua_prompt next)
      let ansi_code : Nat := next + found.1
      let ansi_size : Int := (found.2 : Int)
      let r1 := parse_backspaces lua_prompt next ((ansi_code : Int) - (next : Int))
      let out1 := str_cat_n out_prompt r1.1 next buf_size r1.2
      if r1.1.getD ansi_code 0 ≠ 0 then
        let r2 := parse_backspaces r1.1 ansi_code ansi_size
        let out2 := str_cat out1 (tags.getD 0 []) 0 buf_size
        let out3 := str_cat_n out2 r2.1 ansi_code buf_size r2.2
        let out4 := str_cat out3 (tags.getD 1 []) 0 buf_size
        filter_prompt_loop_counted scan fuel r2.1 out4 (ansi_code + found.2) (iterations + 1)
      else
        filter_prompt_loop_counted scan fuel r1.1 out1 (ansi_code + found.2) (iterations + 1)

/-! ## Theorems -/

theorem getD_mid (a b : List Nat) (c : Nat) (i : Nat) (h : i = a.length) :
    (a ++ c :: b).getD i 0 = c := by
  subst h
  rw [List.getD_eq_getElem?_getD, List.getElem?_append_right (le_refl _)]
  simp

theorem getD_end (a b : List Nat) (i : Nat) (h : i = a.length) :
    (a ++ b).getD i 0 = b.headD 0 := by
  subst h
  rw [List.getD_eq_getElem?_getD, List.getElem?_append_right (le_refl _)]
  cases b <;> simp

theorem set_mid (a b : List Nat) (c d : Nat) (i : Nat) (h : i = a.length) :
    (a ++ c :: b).set i d = a ++ d :: b := by
  subst h; simp

/-- The ghost counters do not change what the loop computes. -/
theorem parse_backspaces_counted_fst (prompt : Nat) :
    ∀ (k : Nat) (mem : List Nat) (read write deleted absorbed : Nat),
      (parse_backspaces_counted prompt k mem read write deleted absorbed).1
        = parse_backspaces_loop prompt k mem read write := by
  intro k
  induction k with
  | zero => intro mem read write deleted absorbed; rfl
  | succ k ih =>
    intro mem read write deleted absorbed
    rw [parse_backspaces_counted, parse_backspaces_loop]
    by_cases h0 : mem.getD read 0 = 0
    · rw [if_pos h0, if_pos h0]
    · rw [if_neg h0, if_neg h0]
      by_cases hb : mem.getD read 0 = BS
      · rw [if_pos hb, if_pos hb]
        by_cases hw : write > prompt
        · rw [if_pos hw, if_pos hw, ih]
        · rw [if_neg hw, if_neg hw, ih]
      · rw [if_neg hb, if_neg hb, ih]

/-- The loop of `parse_backspaces`, started in the middle of a run: `stk` is
what has been kept, `gap` the bytes between the two cursors, `xs` the bytes
still to read. -/
theorem parse_backspaces_counted_spec (pre post : List Nat) :
    ∀ (xs stk gap : List Nat) (k K J : Nat), NoNul xs → xs.length ≤ k →
      (k = xs.length ∨ post.headD 0 = 0) →
      ∃ (gap2 : List Nat) (K2 J2 : Nat),
        gap2.length + (xs.foldl stack_step stk).length
          = stk.length + gap.length + xs.length ∧
        (xs.foldl stack_step stk).length + 2 * K2 + J2
          = stk.length + xs.length + 2 * K + J ∧
        parse_backspaces_counted pre.length k (pre ++ (stk ++ (gap ++ (xs ++ post))))
            (pre.length + stk.length + gap.length) (pre.length + stk.length) K J
          = ((pre ++ (xs.foldl stack_step stk ++ (gap2 ++ post)),
              pre.length + (xs.foldl stack_step stk).length), (K2, J2)) := by
  intro xs
  induction xs with
  | nil =>
    intro stk gap k K J _ hk hstop
    refine ⟨gap, K, J, by simp; omega, by simp, ?_⟩
    cases k with
    | zero => simp [parse_backspaces_counted]
    | succ k =>
      have hp : post.headD 0 = 0 := by
        rcases hstop with h | h
        · simp at h
        · exact h
      have hmem : pre ++ (stk ++ (gap ++ ([] ++ post))) = (pre ++ stk ++ gap) ++ post := by
        simp
      have hread : (pre ++ (stk ++ (gap ++ ([] ++ post)))).getD
          (pre.length + stk.length + gap.length) 0 = 0 := by
        rw [hmem, getD_end _ _ _ (by simp [Nat.add_assoc]), hp]
      rw [parse_backspaces_counted, if_pos hread]
      simp
  | cons c xs ih =>
    intro stk gap k K J hx hk hstop
    cases k with
    | zero => simp at hk
    | succ k =>
      have hc : c ≠ 0 := hx c (by simp)
      have hx2 : NoNul xs := fun d hd => hx d (by simp [hd])
      have hk2 : xs.length ≤ k := by simpa using hk
      have hstop2 : k = xs.length ∨ post.headD 0 = 0 := by
        rcases hstop with h | h
        · left; simpa using h
        · right; exact h
      have hread : (pre ++ (stk ++ (gap ++ (c :: xs ++ post)))).getD
          (pre.length + stk.length + gap.length) 0 = c := by
        have hmem : pre ++ (stk ++ (gap ++ (c :: xs ++ post)))
            = (pre ++ stk ++ gap) ++ c :: (xs ++ post) := by simp
        rw [hmem, getD_mid _ _ _ _ (by simp [Nat.add_assoc])]
      rw [parse_backspaces_counted, hread, if_neg hc]
      by_cases hb : c = BS
      · rw [if_pos hb]
        rcases List.eq_nil_or_concat stk with hs | ⟨stk2, d, hs⟩
        · subst hs
          obtain ⟨gap2, K2, J2, hlen, hcnt, heq⟩ :=
            ih [] (gap ++ [c]) k K (J + 1) hx2 hk2 hstop2
          refine ⟨gap2, K2, J2, ?_, ?_, ?_⟩
          · simp [stack_step, hb] at hlen ⊢
            omega
          · simp [stack_step, hb] at hcnt ⊢
            omega
          · simp [stack_step, hb] at heq ⊢
            simpa [Nat.add_assoc] using heq
        · subst hs
          obtain ⟨gap2, K2, J2, hlen, hcnt, heq⟩ :=
            ih stk2 (d :: (gap ++ [c])) k (K + 1) J hx2 hk2 hstop2
          refine ⟨gap2, K2, J2, ?_, ?_, ?_⟩
          · simp [stack_step, hb] at hlen ⊢
            omega
          · simp [stack_step, hb] at hcnt ⊢
            omega
          · simp [stack_step, hb] at heq ⊢
            have e1 : pre.length + (stk2.length + 1) + gap.length + 1
                = pre.length + stk2.length + (gap.length + 1 + 1) := by omega
            rw [e1]
            simpa [Nat.add_assoc] using heq
      · rw [if_neg hb]
        cases gap with
        | nil =>
          obtain ⟨gap2, K2, J2, hlen, hcnt, heq⟩ :=
            ih (stk ++ [c]) [] k K J hx2 hk2 hstop2
          refine ⟨gap2, K2, J2, ?_, ?_, ?_⟩
          · simp [stack_step, hb] at hlen ⊢
            omega
          · simp [stack_step, hb] at hcnt ⊢
            omega
          · have hset : (pre ++ (stk ++ ([] ++ (c :: xs ++ post)))).set
                (pre.length + stk.length) c
                = pre ++ (stk ++ [c] ++ ([] ++ (xs ++ post))) := by
              have := set_mid (pre ++ stk) (xs ++ post) c c (pre.length + stk.length)
                (by simp)
              simp [this]
            simp only [List.length_nil, Nat.add_zero] at heq ⊢
            rw [hset]
            simp [stack_step, hb] at heq ⊢
            simpa [Nat.add_assoc] using heq
        | cons g gs =>
          obtain ⟨gap2, K2, J2, hlen, hcnt, heq⟩ :=
            ih (stk ++ [c]) (gs ++ [c]) k K J hx2 hk2 hstop2
          refine ⟨gap2, K2, J2, ?_, ?_, ?_⟩
          · simp [stack_step, hb] at hlen ⊢
            omega
          · simp [stack_step, hb] at hcnt ⊢
            omega
          · have hset : (pre ++ (stk ++ (g :: gs ++ (c :: xs ++ post)))).set
                (pre.length + stk.length) c
                = pre ++ (stk ++ [c] ++ (gs ++ [c] ++ (xs ++ post))) := by
              have := set_mid (pre ++ stk) (gs ++ (c :: xs ++ post)) g c
                (pre.length + stk.length) (by simp)
              simp [this]
            rw [hset]
            simp [stack_step, hb] at heq ⊢
            have e1 : pre.length + stk.length + (gs.length + 1) + 1
                = pre.length + (stk.length + 1) + (gs.length + 1) := by omega
            rw [e1]
            simpa [Nat.add_assoc] using heq

theorem read_span_noNul (buf : List Nat) (n : Int) : NoNul (read_span buf n) := by
  intro c hc
  have := List.mem_takeWhile_imp hc
  simpa using this

theorem read_span_length_le (buf : List Nat) (n : Int) :
    (read_span buf n).length ≤ n.toNat := by
  unfold read_span
  have h1 : ((buf.take n.toNat).takeWhile (fun c => c != 0)).length
      ≤ (buf.take n.toNat).length := (List.takeWhile_sublist _).length_le
  have h2 : (buf.take n.toNat).length ≤ n.toNat := by simp
  exact le_trans h1 h2

/-- The buffer splits into the bytes read and a rest at which the loop
stops. -/
theorem read_span_split (buf : List Nat) (n : Int) :
    ∃ post : List Nat, buf = read_span buf n ++ post ∧
      (n.toNat = (read_span buf n).length ∨ post.headD 0 = 0) := by
  refine ⟨(buf.take n.toNat).dropWhile (fun c => c != 0) ++ buf.drop n.toNat, ?_, ?_⟩
  · unfold read_span
    rw [← List.append_assoc, List.takeWhile_append_dropWhile, List.take_append_drop]
  · cases hd : (buf.take n.toNat).dropWhile (fun c => c != 0) with
    | nil =>
      have hall : (buf.take n.toNat).takeWhile (fun c => c != 0) = buf.take n.toNat := by
        have := List.takeWhile_append_dropWhile (fun c => c != 0) (buf.take n.toNat)
        rw [hd, List.append_nil] at this
        exact this
      by_cases hn : n.toNat ≤ buf.length
      · left
        unfold read_span
        rw [hall, List.length_take, Nat.min_eq_left hn]
      · right
        have : buf.drop n.toNat = [] := List.drop_eq_nil_of_le (by omega)
        simp [this]
    | cons r rs =>
      right
      have hne : (buf.take n.toNat).dropWhile (fun c => c != 0) ≠ [] := by simp [hd]
      have := List.head_dropWhile_not (fun c => c != 0) (buf.take n.toNat) hne
      simp only [hd, List.head_cons] at this
      simpa using this

/-- What `parse_backspaces` computes on any memory, with the ghost counters:
the bytes read are replaced by their stack fold followed by leftovers, and
nothing else changes. -/
theorem parse_backspaces_counted_eq (pre buf : List Nat) (n : Int) :
    ∃ (gap post : List Nat) (K J : Nat),
      buf = read_span buf n ++ post ∧
      gap.length + (stack_fold (read_span buf n)).length = (read_span buf n).length ∧
      (stack_fold (read_span buf n)).length + 2 * K + J = (read_span buf n).length ∧
      parse_backspaces_counted pre.length n.toNat (pre ++ buf) pre.length pre.length 0 0
        = ((pre ++ (stack_fold (read_span buf n) ++ (gap ++ post)),
            pre.length + (stack_fold (read_span buf n)).length), (K, J)) := by
  obtain ⟨post, hsplit, hstop⟩ := read_span_split buf n
  obtain ⟨gap, K, J, hlen, hcnt, heq⟩ :=
    parse_backspaces_counted_spec pre post (read_span buf n) [] [] n.toNat 0 0
      (read_span_noNul buf n) (read_span_length_le buf n) hstop
  refine ⟨gap, post, K, J, hsplit, ?_, ?_, ?_⟩
  · simpa [stack_fold] using hlen
  · simpa [stack_fold] using hcnt
  · have hmem : pre ++ ([] ++ ([] ++ (read_span buf n ++ post))) = pre ++ buf := by
      rw [List.nil_append, List.nil_append, ← hsplit]
    rw [hmem] at heq
    simpa [stack_fold] using heq

/-- What `parse_backspaces` computes on any memory. -/
theorem parse_backspaces_eq (pre buf : List Nat) (n : Int) :
    ∃ (gap post : List Nat),
      buf = read_span buf n ++ post ∧
      gap.length + (stack_fold (read_span buf n)).length = (read_span buf n).length ∧
      parse_backspaces (pre ++ buf) pre.length n
        = (pre ++ (stack_fold (read_span buf n) ++ (gap ++ post)),
            ((stack_fold (read_span buf n)).length : Int)) := by
  obtain ⟨gap, post, K, J, hsplit, hlen, _, heq⟩ := parse_backspaces_counted_eq pre buf n
  refine ⟨gap, post, hsplit, hlen, ?_⟩
  have h1 := parse_backspaces_counted_fst pre.length n.toNat (pre ++ buf) pre.length
    pre.length 0 0
  rw [heq] at h1
  unfold parse_backspaces
  rw [← h1]
  simp

theorem read_span_of_noNul (s post : List Nat) (h : NoNul s) :
    read_span (s ++ post) (s.length : Int) = s := by
  unfold read_span
  rw [Int.toNat_ofNat, List.take_left, List.takeWhile_eq_self_iff]
  intro x hx
  simpa using h x hx

theorem foldl_stack_step_no_bs (s : List Nat) (hb : BS ∉ s) :
    ∀ stk : List Nat, s.foldl stack_step stk = stk ++ s := by
  induction s with
  | nil => intro stk; simp
  | cons c s ih =>
    intro stk
    have hc : c ≠ BS := fun h => hb (by simp [h])
    have hs : BS ∉ s := fun h => hb (by simp [h])
    rw [List.foldl_cons, ih hs]
    simp [stack_step, hc]

/-- Shape of the result of `parse_backspaces` on a NUL-free span `s` lying
between `pre` and `post`. -/
theorem parse_backspaces_span (pre s post : List Nat) (h : NoNul s) :
    ∃ gap : List Nat,
      gap.length + (stack_fold s).length = s.length ∧
      parse_backspaces (pre ++ (s ++ post)) pre.length (s.length : Int)
        = (pre ++ (stack_fold s ++ (gap ++ post)), ((stack_fold s).length : Int)) := by
  obtain ⟨gap, post2, hsplit, hlen, heq⟩ :=
    parse_backspaces_eq pre (s ++ post) (s.length : Int)
  rw [read_span_of_noNul s post h] at hsplit hlen heq
  have hp : post2 = post := (List.append_cancel_left hsplit).symm
  subst hp
  exact ⟨gap, hlen, heq⟩

/-- C1: on a buffer whose first `n` bytes `s` contain no NUL, `parse_backspaces`
returns the length of the reference stack fold of `s` (a backspace removes the
last byte kept, or is dropped when nothing is kept; any other byte is
appended), and the first bytes of the rewritten buffer, up to that length,
are that stack fold. -/
theorem parse_backspaces_stack_fold (pre s post : List Nat) (h : NoNul s) :
    (parse_backspaces (pre ++ (s ++ post)) pre.length (s.length : Int)).2
      = ((stack_fold s).length : Int) ∧
    ((parse_backspaces (pre ++ (s ++ post)) pre.length (s.length : Int)).1.drop
        pre.length).take (stack_fold s).length = stack_fold s := by
  obtain ⟨gap, _, heq⟩ := parse_backspaces_span pre s post h
  rw [heq]
  simp

/-- C1, witness: `"ab\bc"` with `n = 4` gives `"ac"` and `r = 2`. -/
theorem parse_backspaces_stack_fold_witness :
    (parse_backspaces [97, 98, 8, 99] 0 4).2 = 2 ∧
    (parse_backspaces [97, 98, 8, 99] 0 4).1.take 2 = [97, 99] :=
  parse_backspaces_stack_fold [] [97, 98, 8, 99] [] (by decide)

/-- C2, as stated, fails: on the one-byte string `"\b"` the backspace meets the
write cursor at the start, so no backspace deletes anything (`k = 0`), yet the
returned length is `0`, not `len(s) - 2*k = 1`. -/
theorem parse_backspaces_length_counterexample :
    NoNul [8] ∧
    deleting_backspaces [8] 0 1 = 0 ∧
    (parse_backspaces [8] 0 1).2 = 0 ∧
    (parse_backspaces [8] 0 1).2
      ≠ (([8] : List Nat).length : Int) - 2 * (deleting_backspaces [8] 0 1 : Int) := by
  decide

/-- C2, amended: for a NUL-free string `s` the length returned by
`parse_backspaces` is `len(s) - 2*k - j`, where `k` counts the backspaces that
deleted a byte written before and `j` the backspaces met while the write
cursor was at the start (each of those removes only itself). -/
theorem parse_backspaces_length (pre s post : List Nat) (h : NoNul s) :
    (parse_backspaces (pre ++ (s ++ post)) pre.length (s.length : Int)).2
      = (s.length : Int)
        - 2 * (deleting_backspaces (pre ++ (s ++ post)) pre.length (s.length : Int) : Int)
        - (absorbed_backspaces (pre ++ (s ++ post)) pre.length (s.length : Int) : Int) := by
  obtain ⟨gap, post2, K, J, _, _, hcnt, heq⟩ :=
    parse_backspaces_counted_eq pre (s ++ post) (s.length : Int)
  have h1 := parse_backspaces_counted_fst pre.length (s.length : Int).toNat
    (pre ++ (s ++ post)) pre.length pre.length 0 0
  rw [read_span_of_noNul s post h] at hcnt heq
  unfold parse_backspaces deleting_backspaces absorbed_backspaces
  rw [← h1, heq]
  simp only
  omega

/-- C2, witness of the amended statement: `"\bab\bc"` has one absorbed and one
deleting backspace and resolves to 2 bytes, `5 - 2*1 - 1`. -/
theorem parse_backspaces_length_witness :
    (parse_backspaces [8, 97, 98, 8, 99] 0 5).2
      = 5 - 2 * (deleting_backspaces [8, 97, 98, 8, 99] 0 5 : Int)
        - (absorbed_backspaces [8, 97, 98, 8, 99] 0 5 : Int) :=
  parse_backspaces_length [] [8, 97, 98, 8, 99] [] (by decide)

/-- C3: on a NUL-free string `s` of length `n` without any backspace,
`parse_backspaces` returns `n` and leaves the memory as it was (so the first
`n` bytes are unchanged). -/
theorem parse_backspaces_identity (pre s post : List Nat) (h : NoNul s) (hb : BS ∉ s) :
    parse_backspaces (pre ++ (s ++ post)) pre.length (s.length : Int)
      = (pre ++ (s ++ post), (s.length : Int)) := by
  obtain ⟨gap, hlen, heq⟩ := parse_backspaces_span pre s post h
  have hf : stack_fold s = s := by
    unfold stack_fold
    rw [foldl_stack_step_no_bs s hb]
    simp
  rw [hf] at hlen heq
  have hg : gap = [] := List.length_eq_zero.mp (by omega)
  rw [heq, hg]
  simp

/-- C3, witness: the string `"C:\>"` is returned as it is, with length 4. -/
theorem parse_backspaces_identity_witness :
    parse_backspaces [67, 58, 92, 62] 0 4 = ([67, 58, 92, 62], 4) :=
  parse_backspaces_identity [] [67, 58, 92, 62] [] (by decide) (by decide)

/-- C4: `parse_backspaces(prompt, n)` with `n >= 0` touches no byte outside
`[prompt, prompt + n)`, returns `r` with `0 <= r <= n`, and `r` and the first
`r` bytes of the result are the same for any two buffers that agree on
their first `n` bytes. -/
theorem parse_backspaces_frame (pre buf : List Nat) (n : Int) (hn : 0 ≤ n) :
    (parse_backspaces (pre ++ buf) pre.length n).1.length = (pre ++ buf).length ∧
    (parse_backspaces (pre ++ buf) pre.length n).1.take pre.length = pre ∧
    ((parse_backspaces (pre ++ buf) pre.length n).1.drop pre.length).drop n.toNat
      = buf.drop n.toNat ∧
    0 ≤ (parse_backspaces (pre ++ buf) pre.length n).2 ∧
    (parse_backspaces (pre ++ buf) pre.length n).2 ≤ n ∧
    ∀ pre2 buf2 : List Nat, buf2.take n.toNat = buf.take n.toNat →
      (parse_backspaces (pre2 ++ buf2) pre2.length n).2
        = (parse_backspaces (pre ++ buf) pre.length n).2 ∧
      ((parse_backspaces (pre2 ++ buf2) pre2.length n).1.drop pre2.length).take
          (parse_backspaces (pre2 ++ buf2) pre2.length n).2.toNat
        = ((parse_backspaces (pre ++ buf) pre.length n).1.drop pre.length).take
          (parse_backspaces (pre ++ buf) pre.length n).2.toNat := by
  obtain ⟨gap, post, hsplit, hlen, heq⟩ := parse_backspaces_eq pre buf n
  have hle := read_span_length_le buf n
  have hbl : buf.length = (read_span buf n).length + post.length := by
    conv_lhs => rw [hsplit]
    simp
  rw [heq]
  refine ⟨?_, ?_, ?_, ?_, ?_, ?_⟩
  · simp; omega
  · simp
  · have e1 : (stack_fold (read_span buf n) ++ (gap ++ post))
        = (stack_fold (read_span buf n) ++ gap) ++ post := by simp
    have e2 : (stack_fold (read_span buf n) ++ gap).length = (read_span buf n).length := by
      simp; omega
    have e3 : (stack_fold (read_span buf n) ++ gap).drop n.toNat = [] :=
      List.drop_eq_nil_of_le (by omega)
    have e4 : (read_span buf n).drop n.toNat = [] := List.drop_eq_nil_of_le hle
    simp only [List.drop_left]
    rw [e1, List.drop_append_eq_append_drop, e2, e3]
    conv_rhs => rw [hsplit, List.drop_append_eq_append_drop, e4]
  · simp
  · simp only
    omega
  · intro pre2 buf2 h2
    obtain ⟨gap2, post2, _, _, heq2⟩ := parse_backspaces_eq pre2 buf2 n
    have hr : read_span buf2 n = read_span buf n := by
      unfold read_span
      rw [h2]
    rw [heq2, hr]
    simp

/-- C4, witness: with `n = 2` on `"a\bcd"` the bytes `c`, `d` stay in place
and the returned length is 0. -/
theorem parse_backspaces_frame_witness :
    ((parse_backspaces [97, 8, 99, 100] 0 2).1.drop 0).drop 2 = [99, 100] ∧
    (parse_backspaces [97, 8, 99, 100] 0 2).2 = 0 := by
  have h := parse_backspaces_frame [] [97, 8, 99, 100] 2 (by decide)
  exact ⟨h.2.2.1, by decide⟩

/-! ### Strings and bounded appends -/

theorem noNul_append {a b : List Nat} (ha : NoNul a) (hb : NoNul b) : NoNul (a ++ b) := by
  intro c hc
  rcases List.mem_append.mp hc with h | h
  · exact ha c h
  · exact hb c h

theorem noNul_of_sublist {a b : List Nat} (h : a.Sublist b) (hb : NoNul b) : NoNul a :=
  fun c hc => hb c (h.subset hc)

theorem takeWhile_noNul (s post : List Nat) (h : NoNul s) (hp : post.headD 0 = 0) :
    (s ++ post).takeWhile (fun c => c != 0) = s := by
  induction s with
  | nil =>
    cases post with
    | nil => rfl
    | cons x xs =>
      have hx : x = 0 := by simpa using hp
      simp [hx]
  | cons c s ih =>
    have hc : c ≠ 0 := h c (by simp)
    have hs : NoNul s := fun d hd => h d (by simp [hd])
    simp [hc, ih hs]

theorem cstr_mid (pre s post : List Nat) (h : NoNul s) (hp : post.headD 0 = 0) :
    cstr (pre ++ (s ++ post)) pre.length = s := by
  unfold cstr
  rw [List.drop_left, takeWhile_noNul s post h hp]

theorem cstr_self (s : List Nat) (h : NoNul s) : cstr s 0 = s := by
  have := cstr_mid [] s [] h rfl
  simpa using this

theorem take_capacity_append (X F : List Nat) :
    X.take capacity ++ F.take (capacity - (X.take capacity).length)
      = (X ++ F).take capacity := by
  rw [List.take_append_eq_append_take]
  by_cases h : X.length ≤ capacity
  · rw [List.length_take, Nat.min_eq_right h]
  · have h1 : (X.take capacity).length = capacity := by
      rw [List.length_take]; omega
    have h2 : capacity - X.length = 0 := by omega
    rw [h1, h2]
    simp

theorem room_eq (d : List Nat) :
    (buf_size - 1 - ((d.length : Nat) : Int)).toNat = capacity - d.length := by
  unfold capacity buf_size
  omega

theorem str_cat_n_take (X F mem : List Nat) (p : Nat) (m : Int) (hX : NoNul X)
    (hF : (mem.drop p).take m.toNat = F) :
    str_cat_n (X.take capacity) mem p buf_size m = (X ++ F).take capacity := by
  have hXc : NoNul (X.take capacity) := noNul_of_sublist (List.take_sublist _ _) hX
  unfold str_cat_n strlen
  rw [cstr_self _ hXc, hF, room_eq, take_capacity_append]

theorem str_cat_take (X F : List Nat) (hX : NoNul X) (hF : NoNul F) :
    str_cat (X.take capacity) F 0 buf_size = (X ++ F).take capacity := by
  have hXc : NoNul (X.take capacity) := noNul_of_sublist (List.take_sublist _ _) hX
  unfold str_cat strlen
  rw [cstr_self _ hXc, cstr_self _ hF, room_eq, take_capacity_append]

/-! ### The stack fold keeps a subsequence -/

theorem foldl_stack_step_sublist (xs : List Nat) :
    ∀ stk : List Nat, (xs.foldl stack_step stk).Sublist (stk ++ xs) := by
  induction xs with
  | nil => intro stk; simp
  | cons c xs ih =>
    intro stk
    rw [List.foldl_cons]
    refine (ih (stack_step stk c)).trans ?_
    have e : stk ++ c :: xs = (stk ++ [c]) ++ xs := by simp
    rw [e]
    refine List.Sublist.append ?_ (List.Sublist.refl xs)
    unfold stack_step
    by_cases hb : c = BS
    · rw [if_pos hb]
      exact (List.dropLast_sublist stk).trans (List.sublist_append_left stk [c])
    · rw [if_neg hb]

theorem stack_fold_sublist (s : List Nat) : (stack_fold s).Sublist s := by
  have := foldl_stack_step_sublist s []
  simpa [stack_fold] using this

theorem resolve_eq_stack_fold (s : List Nat) (h : NoNul s) : resolve s = stack_fold s := by
  obtain ⟨gap, _, heq⟩ := parse_backspaces_span [] s [] h
  simp only [List.nil_append, List.append_nil, List.length_nil] at heq
  unfold resolve
  rw [heq]
  simp

theorem resolve_sublist (s : List Nat) (h : NoNul s) : (resolve s).Sublist s := by
  rw [resolve_eq_stack_fold s h]
  exact stack_fold_sublist s

/-- One `parse_backspaces` call of the loop followed by its `str_cat_n`. -/
theorem span_step (pre s post X : List Nat) (hs : NoNul s) (hX : NoNul X) :
    ∃ gap : List Nat,
      gap.length + (resolve s).length = s.length ∧
      (parse_backspaces (pre ++ (s ++ post)) pre.length (s.length : Int)).1
        = pre ++ (resolve s ++ (gap ++ post)) ∧
      str_cat_n (X.take capacity)
          (parse_backspaces (pre ++ (s ++ post)) pre.length (s.length : Int)).1 pre.length
          buf_size (parse_backspaces (pre ++ (s ++ post)) pre.length (s.length : Int)).2
        = (X ++ resolve s).take capacity := by
  obtain ⟨gap, hlen, heq⟩ := parse_backspaces_span pre s post hs
  rw [← resolve_eq_stack_fold s hs] at hlen heq
  refine ⟨gap, hlen, by rw [heq], ?_⟩
  rw [heq]
  apply str_cat_n_take _ _ _ _ _ hX
  simp

/-! ### The loop of `filter_prompt`, one iteration at a time -/

theorem filter_prompt_loop_done (scan : List Nat → Nat × Nat) (fuel : Nat)
    (lua out : List Nat) (next : Nat) (h0 : lua.getD next 0 = 0) :
    filter_prompt_loop scan fuel lua out next = some out := by
  cases fuel with
  | zero => rw [filter_prompt_loop, if_pos h0]
  | succ fuel => rw [filter_prompt_loop, if_pos h0]

/-- An iteration in which the scanner reports "none remaining". -/
theorem filter_prompt_loop_plain (scan : List Nat → Nat × Nat) (fuel : Nat)
    (lua out lua1 : List Nat) (next off sz : Nat) (len : Int)
    (h0 : lua.getD next 0 ≠ 0) (hscan : scan (cstr lua next) = (off, sz))
    (hr : parse_backspaces lua next (off : Int) = (lua1, len))
    (hz : lua1.getD (next + off) 0 = 0) :
    filter_prompt_loop scan (fuel + 1) lua out next
      = filter_prompt_loop scan fuel lua1 (str_cat_n out lua1 next buf_size len)
          (next + off + sz) := by
  have hcast : ((next + off : Nat) : Int) - (next : Int) = (off : Int) := by omega
  rw [filter_prompt_loop, if_neg h0]
  simp only [hscan, hcast, hr, hz, ne_eq, not_true_eq_false, if_false]

/-- An iteration in which the scanner reports an escape sequence. -/
theorem filter_prompt_loop_ansi (scan : List Nat → Nat × Nat) (fuel : Nat)
    (lua out lua1 lua2 : List Nat) (next off sz : Nat) (len len2 : Int)
    (h0 : lua.getD next 0 ≠ 0) (hscan : scan (cstr lua next) = (off, sz))
    (hr : parse_backspaces lua next (off : Int) = (lua1, len))
    (hnz : lua1.getD (next + off) 0 ≠ 0)
    (hr2 : parse_backspaces lua1 (next + off) (sz : Int) = (lua2, len2)) :
    filter_prompt_loop scan (fuel + 1) lua out next
      = filter_prompt_loop scan fuel lua2
          (str_cat (str_cat_n (str_cat (str_cat_n out lua1 next buf_size len) [1] 0 buf_size)
            lua2 (next + off) buf_size len2) [2] 0 buf_size)
          (next + off + sz) := by
  have hcast : ((next + off : Nat) : Int) - (next : Int) = (off : Int) := by omega
  rw [filter_prompt_loop, if_neg h0]
  simp only [hscan, hcast, hr, hr2, hnz, ne_eq, not_false_eq_true, if_true]
  rfl

theorem resolve_noNul (s : List Nat) (h : NoNul s) : NoNul (resolve s) :=
  noNul_of_sublist (resolve_sublist s h) h

theorem noNul_one : NoNul [1] := by decide

theorem noNul_two : NoNul [2] := by decide

/-- The loop of `filter_prompt` on a string that the scanner splits as
`p0 e1 p1 ... ek pk`: started with an output holding the first `capacity`
bytes of `X`, it ends within `k + 1` iterations and leaves the first
`capacity` bytes of `X` followed by the wrapped form. -/
theorem filter_prompt_loop_spec (scan : List Nat → Nat × Nat) (last tail : List Nat)
    (htail : tail.headD 0 = 0) :
    ∀ (segs : List (List Nat × List Nat)) (pre X : List Nat) (extra : Nat),
      NoNul X → NoNul (assemble segs last) → SplitsAs scan segs last →
      filter_prompt_loop scan (segs.length + 1 + extra)
          (pre ++ (assemble segs last ++ tail)) (X.take capacity) pre.length
        = some ((X ++ wrapped segs last).take capacity) := by
  intro segs
  induction segs with
  | nil =>
    intro pre X extra hX hs hsplit
    simp only [assemble, wrapped, SplitsAs] at hs hsplit ⊢
    have hfuel : ([] : List (List Nat × List Nat)).length + 1 + extra = extra + 1 := by
      simp; omega
    rw [hfuel]
    by_cases hl : last = []
    · subst hl
      have h0 : (pre ++ ([] ++ tail)).getD pre.length 0 = 0 := by
        rw [List.nil_append, getD_end _ _ _ rfl, htail]
      rw [filter_prompt_loop_done _ _ _ _ _ h0]
      have : resolve [] = [] := by decide
      rw [this, List.append_nil]
    · obtain ⟨c, l, hcl⟩ := List.exists_cons_of_ne_nil hl
      have hc : c ≠ 0 := hs c (by simp [hcl])
      have h0 : (pre ++ (last ++ tail)).getD pre.length 0 ≠ 0 := by
        rw [hcl, List.cons_append, getD_mid _ _ _ _ rfl]
        exact hc
      have hscan : scan (cstr (pre ++ (last ++ tail)) pre.length) = (last.length, 0) := by
        rw [cstr_mid pre last tail hs htail]
        exact hsplit hl
      obtain ⟨gap, hlen, hmem, hcat⟩ := span_step pre last tail X hs hX
      have hz : (parse_backspaces (pre ++ (last ++ tail)) pre.length
          (last.length : Int)).1.getD (pre.length + last.length) 0 = 0 := by
        rw [hmem]
        have e : pre ++ (resolve last ++ (gap ++ tail)) = (pre ++ resolve last ++ gap) ++ tail := by
          simp
        rw [e, getD_end _ _ _ (by simp; omega), htail]
      have hr1 : parse_backspaces (pre ++ (last ++ tail)) pre.length (last.length : Int)
          = ((parse_backspaces (pre ++ (last ++ tail)) pre.length (last.length : Int)).1,
             (parse_backspaces (pre ++ (last ++ tail)) pre.length (last.length : Int)).2) := rfl
      rw [filter_prompt_loop_plain scan extra _ _ _ pre.length last.length 0 _ h0 hscan
        hr1 hz, hcat]
      exact filter_prompt_loop_done _ _ _ _ _ hz
  | cons pe rest ih =>
    intro pre X extra hX hs hsplit
    obtain ⟨p, e⟩ := pe
    simp only [assemble, wrapped, SplitsAs] at hs hsplit ⊢
    obtain ⟨hne, hscan0, hrest⟩ := hsplit
    have hfuel : ((p, e) :: rest).length + 1 + extra = (rest.length + 1 + extra) + 1 := by
      simp; omega
    rw [hfuel]
    have hp : NoNul p := fun c hc => hs c (by simp [hc])
    have he : NoNul e := fun c hc => hs c (by simp [hc])
    have hr : NoNul (assemble rest last) := fun c hc => hs c (by simp [hc])
    obtain ⟨c, l, hcl⟩ := List.exists_cons_of_ne_nil hne
    have hc : c ≠ 0 := he c (by simp [hcl])
    have h0 : (pre ++ (p ++ (e ++ assemble rest last) ++ tail)).getD pre.length 0 ≠ 0 := by
      cases p with
      | nil =>
        rw [hcl]
        simp only [List.nil_append, List.cons_append]
        rw [getD_mid _ _ _ _ rfl]
        exact hc
      | cons d p2 =>
        simp only [List.cons_append]
        rw [getD_mid _ _ _ _ rfl]
        exact hp d (by simp)
    have hscan : scan (cstr (pre ++ (p ++ (e ++ assemble rest last) ++ tail)) pre.length)
        = (p.length, e.length) := by
      rw [cstr_mid pre _ tail hs htail]
      exact hscan0
    have hm1 : pre ++ (p ++ (e ++ assemble rest last) ++ tail)
        = pre ++ (p ++ (e ++ (assemble rest last ++ tail))) := by simp
    obtain ⟨gap, hlen, hmem, hcat⟩ :=
      span_step pre p (e ++ (assemble rest last ++ tail)) X hp hX
    rw [← hm1] at hmem hcat
    have hm2 : pre ++ (resolve p ++ (gap ++ (e ++ (assemble rest last ++ tail))))
        = (pre ++ (resolve p ++ gap)) ++ (e ++ (assemble rest last ++ tail)) := by simp
    have hl2 : (pre ++ (resolve p ++ gap)).length = pre.length + p.length := by
      simp; omega
    have hnz : (parse_backspaces (pre ++ (p ++ (e ++ assemble rest last) ++ tail)) pre.length
        (p.length : Int)).1.getD (pre.length + p.length) 0 ≠ 0 := by
      rw [hmem, hm2, hcl, List.cons_append, getD_mid _ _ _ _ hl2.symm]
      exact hc
    have hX1 : NoNul (X ++ resolve p) := noNul_append hX (resolve_noNul p hp)
    have hX2 : NoNul (X ++ resolve p ++ [1]) := noNul_append hX1 noNul_one
    obtain ⟨gap2, hlen2, hmem2, hcat2⟩ :=
      span_step (pre ++ (resolve p ++ gap)) e (assemble rest last ++ tail)
        (X ++ resolve p ++ [1]) he hX2
    rw [← hm2, ← hmem, hl2] at hmem2 hcat2
    have hX3 : NoNul (X ++ resolve p ++ [1] ++ resolve e) :=
      noNul_append hX2 (resolve_noNul e he)
    have hX4 : NoNul (X ++ resolve p ++ [1] ++ resolve e ++ [2]) :=
      noNul_append hX3 noNul_two
    have hr1 : parse_backspaces (pre ++ (p ++ (e ++ assemble rest last) ++ tail)) pre.length
          (p.length : Int)
        = ((parse_backspaces (pre ++ (p ++ (e ++ assemble rest last) ++ tail)) pre.length
              (p.length : Int)).1,
           (parse_backspaces (pre ++ (p ++ (e ++ assemble rest last) ++ tail)) pre.length
              (p.length : Int)).2) := rfl
    have hr2 : parse_backspaces (parse_backspaces (pre ++ (p ++ (e ++ assemble rest last) ++ tail))
          pre.length (p.length : Int)).1 (pre.length + p.length) (e.length : Int)
        = ((parse_backspaces (parse_backspaces (pre ++ (p ++ (e ++ assemble rest last) ++ tail))
              pre.length (p.length : Int)).1 (pre.length + p.length) (e.length : Int)).1,
           (parse_backspaces (parse_backspaces (pre ++ (p ++ (e ++ assemble rest last) ++ tail))
              pre.length (p.length : Int)).1 (pre.length + p.length) (e.length : Int)).2) := rfl
    rw [filter_prompt_loop_ansi scan _ _ _ _ _ pre.length p.length e.length _ _ h0 hscan
      hr1 hnz hr2, hcat, str_cat_take _ _ hX1 noNul_one, hcat2,
      str_cat_take _ _ hX3 noNul_two, hmem2]
    have hm3 : pre ++ (resolve p ++ gap) ++ (resolve e ++ (gap2 ++ (assemble rest last ++ tail)))
        = (pre ++ (resolve p ++ gap) ++ (resolve e ++ gap2)) ++ (assemble rest last ++ tail) := by
      simp
    have hl3 : pre.length + p.length + e.length
        = (pre ++ (resolve p ++ gap) ++ (resolve e ++ gap2)).length := by
      simp; omega
    rw [hm3, hl3, ih _ _ extra hX4 hr hrest]
    simp

/-- What `filter_prompt` returns when the hook leaves a string that the
scanner splits as `p0 e1 p1 ... ek pk`: the first `capacity` bytes of the
wrapped form, within `k + 1` iterations of the loop. -/
theorem filter_prompt_spec (hook : List Nat → Int → List Nat) (scan : List Nat → Nat × Nat)
    (in_prompt : List Nat) (segs : List (List Nat × List Nat)) (last tail : List Nat)
    (extra : Nat)
    (hhook : hook (str_cat [] in_prompt 0 buf_size) buf_size = assemble segs last ++ tail)
    (htail : tail.headD 0 = 0) (hs : NoNul (assemble segs last))
    (hsplit : SplitsAs scan segs last) :
    filter_prompt hook scan (segs.length + 1 + extra) in_prompt
      = some ((wrapped segs last).take capacity) := by
  unfold filter_prompt
  simp only [hhook]
  have h := filter_prompt_loop_spec scan last tail htail segs [] [] extra
    (fun _ hc => absurd hc (List.not_mem_nil _)) hs hsplit
  simpa using h

/-- The scratch copy of a NUL-free prompt that fits is the prompt. -/
theorem scratch_copy_fits (s : List Nat) (hs : NoNul s) (hlen : s.length ≤ capacity) :
    str_cat [] s 0 buf_size = s := by
  have h := str_cat_take [] s (fun _ hc => absurd hc (List.not_mem_nil _)) hs
  simp only [List.take_nil, List.nil_append] at h
  rw [h, List.take_of_length_le hlen]

/-! ### An over-long prompt -/

theorem ab_run_length (n : Nat) : (ab_run n).length = 2 * n := by
  induction n with
  | zero => rfl
  | succ n ih => simp [ab_run, ih]; omega

theorem ab_run_noNul (n : Nat) : NoNul (ab_run n) := by
  induction n with
  | zero => intro c hc; simp [ab_run] at hc
  | succ n ih =>
    intro c hc
    simp only [ab_run, List.mem_cons] at hc
    rcases hc with h | h | h
    · omega
    · omega
    · exact ih c h

theorem ab_run_no_esc (n : Nat) : ∀ c ∈ ab_run n, c ≠ 27 := by
  induction n with
  | zero => intro c hc; simp [ab_run] at hc
  | succ n ih =>
    intro c hc
    simp only [ab_run, List.mem_cons] at hc
    rcases hc with h | h | h
    · omega
    · omega
    · exact ih c h

theorem ab_run_take (n : Nat) : (ab_run (n + 1)).take (2 * n + 1) = ab_run n ++ [97] := by
  induction n with
  | zero => rfl
  | succ n ih =>
    have e : 2 * (n + 1) + 1 = (2 * n + 1) + 1 + 1 := by omega
    rw [e]
    conv_lhs => rw [ab_run]
    rw [List.take_succ_cons, List.take_succ_cons, ih]
    rfl

theorem foldl_stack_step_ab_run (n : Nat) (rest stk : List Nat) :
    (ab_run n ++ rest).foldl stack_step stk = rest.foldl stack_step stk := by
  induction n with
  | zero => rfl
  | succ n ih =>
    simp only [ab_run, List.cons_append, List.foldl_cons]
    have e : stack_step (stack_step stk 97) 8 = stk := by simp [stack_step, BS]
    rw [e, ih]

theorem scan_sgr_no_esc (s : List Nat) (h : ∀ c ∈ s, c ≠ 27) : scan_sgr s = (s.length, 0) := by
  have ht : s.takeWhile (fun c => c != 27) = s := by
    rw [List.takeWhile_eq_self_iff]
    intro c hc
    simpa using h c hc
  unfold scan_sgr
  simp [ht]

/-- C5, as stated, fails for a prompt that is longer than the scratch buffer
although its result fits: the 16384-byte prompt `"a\b"` repeated 8192 times
has no escape sequence and resolves to the empty string, but the scratch copy
keeps only its first 16383 bytes, which end in an `a` that has lost its
backspace, and the output is `"a"`. -/
theorem filter_prompt_wraps_counterexample :
    NoNul (ab_run 8192) ∧ SplitsAs scan_sgr [] (ab_run 8192) ∧
    wrapped [] (ab_run 8192) = [] ∧
    (wrapped [] (ab_run 8192)).length ≤ capacity ∧
    filter_prompt hook_id scan_sgr 1 (ab_run 8192) = some [97] ∧
    filter_prompt hook_id scan_sgr 1 (ab_run 8192) ≠ some (wrapped [] (ab_run 8192)) := by
  have hw : wrapped [] (ab_run 8192) = [] := by
    have h := foldl_stack_step_ab_run 8192 [] []
    rw [List.append_nil] at h
    simp only [wrapped]
    rw [resolve_eq_stack_fold _ (ab_run_noNul 8192)]
    exact h
  have hcap : capacity = 2 * 8191 + 1 := by decide
  have hscratch : str_cat [] (ab_run 8192) 0 buf_size = ab_run 8191 ++ [97] := by
    have h := str_cat_take [] (ab_run 8192) (fun _ hc => absurd hc (List.not_mem_nil _))
      (ab_run_noNul 8192)
    simp only [List.take_nil, List.nil_append] at h
    rw [h, hcap]
    exact ab_run_take 8191
  have hn : NoNul (ab_run 8191 ++ [97]) := noNul_append (ab_run_noNul 8191) (by decide)
  have hesc : ∀ c ∈ ab_run 8191 ++ [97], c ≠ 27 := by
    intro c hc
    rcases List.mem_append.mp hc with h | h
    · exact ab_run_no_esc 8191 c h
    · simp at h; omega
  have hout : filter_prompt hook_id scan_sgr 1 (ab_run 8192) = some [97] := by
    have h := filter_prompt_spec hook_id scan_sgr (ab_run 8192) [] (ab_run 8191 ++ [97]) [] 0
      (by simp only [hook_id, assemble, List.append_nil]; exact hscratch) rfl hn
      (fun _ => scan_sgr_no_esc _ hesc)
    have hr : resolve (ab_run 8191 ++ [97]) = [97] := by
      rw [resolve_eq_stack_fold _ hn]
      unfold stack_fold
      rw [foldl_stack_step_ab_run]
      decide
    simp only [wrapped, hr] at h
    exact h
  refine ⟨ab_run_noNul 8192, fun _ => scan_sgr_no_esc _ (ab_run_no_esc 8192), hw, ?_, hout, ?_⟩
  · rw [hw]; simp
  · rw [hout, hw]
    decide

/-- C5, amended: with a hook that returns its input unchanged, a NUL-free
prompt that fits in the scratch buffer (at most `buf_size - 1` bytes) and
that the scanner splits as `p0 e1 p1 ... ek pk`, and a wrapped result that
fits in capacity, `filter_prompt` returns
`R(p0) 0x01 R(e1) 0x02 R(p1) ... 0x01 R(ek) 0x02 R(pk)` within `k + 1`
iterations, `R` being `parse_backspaces` applied to the span alone. -/
theorem filter_prompt_wraps (scan : List Nat → Nat × Nat)
    (segs : List (List Nat × List Nat)) (last : List Nat) (extra : Nat)
    (hs : NoNul (assemble segs last)) (hsplit : SplitsAs scan segs last)
    (hin : (assemble segs last).length ≤ capacity)
    (hfit : (wrapped segs last).length ≤ capacity) :
    filter_prompt hook_id scan (segs.length + 1 + extra) (assemble segs last)
      = some (wrapped segs last) := by
  have h := filter_prompt_spec hook_id scan (assemble segs last) segs last [] extra
    (by simp only [hook_id, List.append_nil]; exact scratch_copy_fits _ hs hin) rfl hs hsplit
  rw [h, List.take_of_length_le hfit]

/-- C5, witness: `"\x1b[32mOK\x1b[0m "` gives
`0x01 "\x1b[32m" 0x02 "OK" 0x01 "\x1b[0m" 0x02 " "`. -/
theorem filter_prompt_wraps_witness :
    filter_prompt hook_id scan_sgr 3 [27, 91, 51, 50, 109, 79, 75, 27, 91, 48, 109, 32]
      = some [1, 27, 91, 51, 50, 109, 2, 79, 75, 1, 27, 91, 48, 109, 2, 32] :=
  filter_prompt_wraps scan_sgr
    [([], [27, 91, 51, 50, 109]), ([79, 75], [27, 91, 48, 109])] [32] 0
    (by decide) (by decide) (by decide) (by decide)

theorem resolve_no_bs (s : List Nat) (hs : NoNul s) (hb : BS ∉ s) : resolve s = s := by
  rw [resolve_eq_stack_fold s hs]
  unfold stack_fold
  rw [foldl_stack_step_no_bs s hb]
  simp

/-- C6: for a NUL-free prompt `s` shorter than `buf_size` in which the
scanner finds no escape sequence, and the identity hook, `filter_prompt`
returns the backspace-resolved form of the whole prompt after at most one
iteration; that output is a subsequence of the prompt, so it holds no `0x01`
or `0x02` that the prompt did not hold; a prompt without backspaces is
returned unchanged; the empty prompt gives the empty output. -/
theorem filter_prompt_plain (scan : List Nat → Nat × Nat) (s : List Nat) (extra : Nat)
    (hs : NoNul s) (hlen : (s.length : Int) < buf_size)
    (hnone : scan s = (s.length, 0)) :
    filter_prompt hook_id scan (1 + extra) s = some (resolve s) ∧
    (resolve s).Sublist s ∧
    (resolve s).count 1 ≤ s.count 1 ∧ (resolve s).count 2 ≤ s.count 2 ∧
    (BS ∉ s → filter_prompt hook_id scan (1 + extra) s = some s) ∧
    filter_prompt hook_id scan extra [] = some [] := by
  have hcap : s.length ≤ capacity := by
    unfold capacity
    unfold buf_size at hlen ⊢
    omega
  have hsub := resolve_sublist s hs
  have hmain : filter_prompt hook_id scan (1 + extra) s = some (resolve s) := by
    have h := filter_prompt_spec hook_id scan s [] s [] extra
      (by simp only [hook_id, assemble, List.append_nil]; exact scratch_copy_fits _ hs hcap)
      rfl hs (fun _ => hnone)
    simp only [wrapped] at h
    rw [List.take_of_length_le (le_trans hsub.length_le hcap)] at h
    simpa using h
  refine ⟨hmain, hsub, hsub.count_le 1, hsub.count_le 2, ?_, ?_⟩
  · intro hb
    rw [hmain, resolve_no_bs s hs hb]
  · unfold filter_prompt
    exact filter_prompt_loop_done _ _ _ _ _ rfl

/-- C6, witness: the prompt `"C:\\>"`, which has neither escape sequence nor
backspace, is returned unchanged. -/
theorem filter_prompt_plain_witness :
    filter_prompt hook_id scan_sgr 1 [67, 58, 92, 62] = some [67, 58, 92, 62] :=
  (filter_prompt_plain scan_sgr [67, 58, 92, 62] 0 (by decide) (by decide)
    (by decide)).2.2.2.2.1 (by decide)

/-! ### Balanced markers -/

theorem bracket_bodies_plain (a rest : List Nat) (ha : NoMarker a) :
    bracket_bodies none (a ++ rest) = bracket_bodies none rest := by
  induction a with
  | nil => rfl
  | cons c a ih =>
    have hc := ha c (by simp)
    have ha2 : NoMarker a := fun d hd => ha d (by simp [hd])
    rw [List.cons_append, bracket_bodies, if_neg hc.1, if_neg hc.2, ih ha2]

theorem bracket_bodies_body (b rest : List Nat) (hb : NoMarker b) :
    ∀ acc : List Nat, bracket_bodies (some acc) (b ++ 2 :: rest)
      = (bracket_bodies none rest).map (fun l => (acc ++ b) :: l) := by
  induction b with
  | nil =>
    intro acc
    rw [List.nil_append, bracket_bodies, if_pos rfl, List.append_nil]
  | cons c b ih =>
    intro acc
    have hc := hb c (by simp)
    have hb2 : NoMarker b := fun d hd => hb d (by simp [hd])
    rw [List.cons_append, bracket_bodies, if_neg hc.2, if_neg hc.1, ih hb2]
    simp

theorem noMarker_of_sublist {a b : List Nat} (h : a.Sublist b) (hb : NoMarker b) :
    NoMarker a :=
  fun c hc => hb c (h.subset hc)

/-- The wrapped form of marker-free spans is balanced, and its bracketed
bodies are the resolved escape sequences. -/
theorem bracket_bodies_wrapped (last : List Nat) :
    ∀ segs : List (List Nat × List Nat), NoNul (assemble segs last) →
      NoMarker (assemble segs last) →
      bracket_bodies none (wrapped segs last) = some (segs.map (fun pe => resolve pe.2)) := by
  intro segs
  induction segs with
  | nil =>
    intro hs hm
    simp only [assemble, wrapped] at hs hm ⊢
    have h := bracket_bodies_plain (resolve last) []
      (noMarker_of_sublist (resolve_sublist last hs) hm)
    rw [List.append_nil] at h
    rw [h]
    rfl
  | cons pe rest ih =>
    intro hs hm
    obtain ⟨p, e⟩ := pe
    simp only [assemble, wrapped] at hs hm ⊢
    have hp : NoNul p := fun c hc => hs c (by simp [hc])
    have he : NoNul e := fun c hc => hs c (by simp [hc])
    have hr : NoNul (assemble rest last) := fun c hc => hs c (by simp [hc])
    have hmp : NoMarker p := fun c hc => hm c (by simp [hc])
    have hme : NoMarker e := fun c hc => hm c (by simp [hc])
    have hmr : NoMarker (assemble rest last) := fun c hc => hm c (by simp [hc])
    rw [bracket_bodies_plain _ _ (noMarker_of_sublist (resolve_sublist p hp) hmp)]
    rw [List.singleton_append, bracket_bodies, if_pos rfl, List.singleton_append,
      bracket_bodies_body _ _ (noMarker_of_sublist (resolve_sublist e he) hme), ih hr hmr]
    simp

theorem scan_sgr_after_plain (a r : List Nat) (ha : ∀ c ∈ a, c ≠ 27) :
    scan_sgr (a ++ 27 :: r) = (a.length, (scan_sgr (27 :: r)).2) := by
  have ht : (a ++ 27 :: r).takeWhile (fun c => c != 27) = a := by
    rw [List.takeWhile_append_of_pos (by intro c hc; simpa using ha c hc)]
    simp
  unfold scan_sgr
  simp [ht]

theorem replicate_97_props (n : Nat) :
    NoNul (List.replicate n 97) ∧ NoMarker (List.replicate n 97) ∧
    BS ∉ List.replicate n 97 ∧ ∀ c ∈ List.replicate n 97, c ≠ 27 := by
  refine ⟨?_, ?_, ?_, ?_⟩
  · intro c hc
    rw [List.eq_of_mem_replicate hc]; decide
  · intro c hc
    rw [List.eq_of_mem_replicate hc]; decide
  · intro hc
    have := List.eq_of_mem_replicate hc
    simp [BS] at this
  · intro c hc
    rw [List.eq_of_mem_replicate hc]; decide

/-- A prompt of `n` bytes `a` and the sequence `"\x1b[m"` that fills the
scratch buffer exactly: the output is full after the start marker and two
bytes of the sequence. -/
theorem filter_prompt_cut_marker (n : Nat) (hcap : n + 3 = capacity) :
    NoMarker (List.replicate n 97 ++ [27, 91, 109]) ∧
    SplitsAs scan_sgr [(List.replicate n 97, [27, 91, 109])] [] ∧
    filter_prompt hook_id scan_sgr 2 (List.replicate n 97 ++ [27, 91, 109])
      = some (List.replicate n 97 ++ [1, 27, 91]) ∧
    bracket_bodies none (List.replicate n 97 ++ [1, 27, 91]) = none := by
  obtain ⟨hn, hm, hb, he⟩ := replicate_97_props n
  have hs : NoNul (assemble [(List.replicate n 97, [27, 91, 109])] []) := by
    simp only [assemble]
    exact noNul_append hn (by decide)
  have hsplit : SplitsAs scan_sgr [(List.replicate n 97, [27, 91, 109])] [] := by
    simp only [SplitsAs, assemble, List.append_nil]
    refine ⟨by decide, ?_, fun h => absurd rfl h⟩
    rw [scan_sgr_after_plain _ _ he]
    simp only [List.length_replicate]
    rfl
  have hin : (assemble [(List.replicate n 97, [27, 91, 109])] []).length ≤ capacity := by
    rw [← hcap]
    simp [assemble]
  have hout := filter_prompt_spec hook_id scan_sgr
    (assemble [(List.replicate n 97, [27, 91, 109])] [])
    [(List.replicate n 97, [27, 91, 109])] [] [] 0
    (by simp only [hook_id, List.append_nil]; exact scratch_copy_fits _ hs hin) rfl hs hsplit
  have hw : (wrapped [(List.replicate n 97, [27, 91, 109])] []).take capacity
      = List.replicate n 97 ++ [1, 27, 91] := by
    have h1 : resolve [27, 91, 109] = [27, 91, 109] := by decide
    have h2 : resolve [] = [] := by decide
    have h3 : n + 3 - n = 3 := by omega
    simp only [wrapped, resolve_no_bs _ hn hb, h1, h2]
    rw [← hcap, List.take_append_eq_append_take, List.length_replicate,
      List.take_of_length_le (by simp), h3]
    rfl
  rw [hw] at hout
  refine ⟨?_, hsplit, ?_, ?_⟩
  · intro c hc
    rcases List.mem_append.mp hc with h | h
    · exact hm c h
    · simp at h
      omega
  · simpa [assemble] using hout
  · rw [bracket_bodies_plain _ _ hm]
    decide

/-- C7, as stated, fails in two ways.  A marker byte of the prompt is copied
like any other byte: the one-byte prompt `0x01`, in which there is no escape
sequence, comes out as a start marker that no end marker follows.  And a
marker can be cut off at the capacity: for 16380 bytes `a` followed by
`"\x1b[m"` the output is full after the start marker and two bytes of the
sequence, so the end marker is not written. -/
theorem filter_prompt_balanced_counterexample :
    (filter_prompt hook_id scan_sgr 1 [1] = some [1] ∧ bracket_bodies none [1] = none) ∧
    (NoMarker (List.replicate 16380 97 ++ [27, 91, 109]) ∧
      SplitsAs scan_sgr [(List.replicate 16380 97, [27, 91, 109])] [] ∧
      filter_prompt hook_id scan_sgr 2 (List.replicate 16380 97 ++ [27, 91, 109])
        = some (List.replicate 16380 97 ++ [1, 27, 91]) ∧
      bracket_bodies none (List.replicate 16380 97 ++ [1, 27, 91]) = none) :=
  ⟨⟨by decide, by decide⟩, filter_prompt_cut_marker 16380 (by decide)⟩

/-- C7, amended: when the hook's output holds no `0x01` or `0x02` byte of its
own and the wrapped result fits in capacity, the output of `filter_prompt`
is bracket-balanced: it reads as plain bytes and spans `0x01 body 0x02`, one
span per escape sequence of the hook's output and in the same order, each
body being the backspace-resolved form of its escape sequence. -/
theorem filter_prompt_balanced (hook : List Nat → Int → List Nat)
    (scan : List Nat → Nat × Nat) (in_prompt : List Nat)
    (segs : List (List Nat × List Nat)) (last tail : List Nat) (extra : Nat)
    (hhook : hook (str_cat [] in_prompt 0 buf_size) buf_size = assemble segs last ++ tail)
    (htail : tail.headD 0 = 0) (hs : NoNul (assemble segs last))
    (hsplit : SplitsAs scan segs last) (hm : NoMarker (assemble segs last))
    (hfit : (wrapped segs last).length ≤ capacity) :
    ∃ out : List Nat,
      filter_prompt hook scan (segs.length + 1 + extra) in_prompt = some out ∧
      bracket_bodies none out = some (segs.map (fun pe => resolve pe.2)) := by
  refine ⟨wrapped segs last, ?_, bracket_bodies_wrapped last segs hs hm⟩
  rw [filter_prompt_spec hook scan in_prompt segs last tail extra hhook htail hs hsplit,
    List.take_of_length_le hfit]

/-- C7, witness: in the output for `"\x1b[32mOK\x1b[0m "` the bracketed bodies
are the two escape sequences. -/
theorem filter_prompt_balanced_witness :
    ∃ out : List Nat,
      filter_prompt hook_id scan_sgr 3 [27, 91, 51, 50, 109, 79, 75, 27, 91, 48, 109, 32]
        = some out ∧
      bracket_bodies none out = some [[27, 91, 51, 50, 109], [27, 91, 48, 109]] :=
  filter_prompt_balanced hook_id scan_sgr [27, 91, 51, 50, 109, 79, 75, 27, 91, 48, 109, 32]
    [([], [27, 91, 51, 50, 109]), ([79, 75], [27, 91, 48, 109])] [32] [] 0
    (by decide) (by decide) (by decide) (by decide) (by decide) (by decide)

/-! ### Capacity -/

theorem cstr_length_le (d : List Nat) : (cstr d 0).length ≤ d.length := by
  unfold cstr
  rw [List.drop_zero]
  exact (List.takeWhile_sublist _).length_le

theorem str_cat_length_le (d mem : List Nat) (p : Nat) (hd : d.length ≤ capacity) :
    (str_cat d mem p buf_size).length ≤ capacity := by
  have h1 := cstr_length_le d
  unfold str_cat strlen
  rw [room_eq, List.length_append, List.length_take]
  omega

theorem str_cat_n_length_le (d mem : List Nat) (p : Nat) (m : Int) (hd : d.length ≤ capacity) :
    (str_cat_n d mem p buf_size m).length ≤ capacity := by
  have h1 := cstr_length_le d
  unfold str_cat_n strlen
  rw [room_eq, List.length_append, List.length_take]
  omega

/-- Whatever the scanner does, the loop of `filter_prompt` never leaves more
than `capacity` bytes in the output. -/
theorem filter_prompt_loop_length_le (scan : List Nat → Nat × Nat) :
    ∀ (fuel : Nat) (lua out : List Nat) (next : Nat) (res : List Nat),
      out.length ≤ capacity → filter_prompt_loop scan fuel lua out next = some res →
      res.length ≤ capacity := by
  intro fuel
  induction fuel with
  | zero =>
    intro lua out next res hout h
    rw [filter_prompt_loop] at h
    by_cases h0 : lua.getD next 0 = 0
    · rw [if_pos h0] at h
      cases h
      exact hout
    · rw [if_neg h0] at h
      cases h
  | succ fuel ih =>
    intro lua out next res hout h
    rw [filter_prompt_loop] at h
    by_cases h0 : lua.getD next 0 = 0
    · rw [if_pos h0] at h
      cases h
      exact hout
    · rw [if_neg h0] at h
      simp only at h
      split at h
      · refine ih _ _ _ res ?_ h
        exact str_cat_length_le _ _ _ (str_cat_n_length_le _ _ _ _
          (str_cat_length_le _ _ _ (str_cat_n_length_le _ _ _ _ hout)))
      · exact ih _ _ _ res (str_cat_n_length_le _ _ _ _ hout) h

/-- C8: with the helpers bounded by `buf_size = 0x4000`, the scratch copy of
any raw prompt and the output of `filter_prompt` for any hook, any scanner
and any number of iterations have at most `0x4000 - 1` bytes; and when the
hook leaves a string that the scanner splits as `p0 e1 p1 ... ek pk`, the
call returns the wrapped form cut at `0x4000 - 1` bytes: a longer result is
truncated at that boundary, it is not an error. -/
theorem filter_prompt_bounded (hook : List Nat → Int → List Nat)
    (scan : List Nat → Nat × Nat) (in_prompt : List Nat)
    (segs : List (List Nat × List Nat)) (last tail : List Nat) (extra : Nat)
    (hhook : hook (str_cat [] in_prompt 0 buf_size) buf_size = assemble segs last ++ tail)
    (htail : tail.headD 0 = 0) (hs : NoNul (assemble segs last))
    (hsplit : SplitsAs scan segs last) :
    (str_cat [] in_prompt 0 buf_size).length ≤ 0x4000 - 1 ∧
    (∀ (scan2 : List Nat → Nat × Nat) (fuel : Nat) (out : List Nat),
      filter_prompt hook scan2 fuel in_prompt = some out → out.length ≤ 0x4000 - 1) ∧
    filter_prompt hook scan (segs.length + 1 + extra) in_prompt
      = some ((wrapped segs last).take (0x4000 - 1)) ∧
    ((wrapped segs last).take (0x4000 - 1)).length ≤ 0x4000 - 1 := by
  have hcap : capacity = 0x4000 - 1 := by decide
  rw [← hcap]
  refine ⟨str_cat_length_le _ _ _ (by simp), ?_,
    filter_prompt_spec hook scan in_prompt segs last tail extra hhook htail hs hsplit, ?_⟩
  · intro scan2 fuel out h
    unfold filter_prompt at h
    exact filter_prompt_loop_length_le scan2 fuel _ [] 0 out (by simp) h
  · rw [List.length_take]
    omega

/-- C8, witness: for `"\x1b[32mOK\x1b[0m "` the scratch copy has at most
`0x4000 - 1` bytes and the call returns the wrapped form cut at that length. -/
theorem filter_prompt_bounded_witness :
    (str_cat [] [27, 91, 51, 50, 109, 79, 75, 27, 91, 48, 109, 32] 0 buf_size).length
      ≤ 0x4000 - 1 ∧
    filter_prompt hook_id scan_sgr 3 [27, 91, 51, 50, 109, 79, 75, 27, 91, 48, 109, 32]
      = some ((wrapped [([], [27, 91, 51, 50, 109]), ([79, 75], [27, 91, 48, 109])]
          [32]).take (0x4000 - 1)) := by
  have h := filter_prompt_bounded hook_id scan_sgr
    [27, 91, 51, 50, 109, 79, 75, 27, 91, 48, 109, 32]
    [([], [27, 91, 51, 50, 109]), ([79, 75], [27, 91, 48, 109])] [32] [] 0
    (by decide) (by decide) (by decide) (by decide)
  exact ⟨h.1, h.2.2.1⟩

/-! ### Tagged prompts -/

theorem cstr_noNul (mem : List Nat) (p : Nat) : NoNul (cstr mem p) := by
  intro c hc
  have := List.mem_takeWhile_imp hc
  simpa using this

theorem cstr_terminated (s : List Nat) (h : NoNul s) : cstr (s ++ [0]) 0 = s := by
  have := cstr_mid [] s [0] h rfl
  simpa using this

theorem lex_cmp_self (l : List Nat) : lex_cmp l l = 0 := by
  induction l with
  | nil => rfl
  | cons x l ih => simp [lex_cmp, ih]

theorem is_tagged_loop_congr (a b : List Nat) (n : Int) (h : cstr a 0 = cstr b 0) :
    ∀ tags : List (List Nat), is_tagged_loop a n tags = is_tagged_loop b n tags := by
  intro tags
  induction tags with
  | nil => rfl
  | cons t ts ih =>
    simp only [is_tagged_loop, wcsncmp, h, ih]

theorem is_tagged_congr (a b : List Nat) (n : Int) (h : cstr a 0 = cstr b 0) :
    tagged_prompt.is_tagged a n = tagged_prompt.is_tagged b n := by
  unfold tagged_prompt.is_tagged wcslen
  simp only [h]
  exact is_tagged_loop_congr a b _ h _

theorem hidden_noNul : NoNul g_prompt_tag_hidden := by decide

theorem wcslen_hidden : wcslen g_prompt_tag_hidden = 12 := by decide

/-- A string that starts with the hidden marker is tagged, with the length
of that marker. -/
theorem is_tagged_hidden (q : List Nat) (hq : NoNul q) :
    tagged_prompt.is_tagged (g_prompt_tag_hidden ++ (q ++ [0])) default_char_count = 12 := by
  have hc : cstr (g_prompt_tag_hidden ++ (q ++ [0])) 0 = g_prompt_tag_hidden ++ q := by
    have := cstr_terminated (g_prompt_tag_hidden ++ q) (noNul_append hidden_noNul hq)
    simpa using this
  have hcmp : wcsncmp (g_prompt_tag_hidden ++ (q ++ [0])) g_prompt_tag_hidden 12 = 0 := by
    unfold wcsncmp
    rw [hc, cstr_self _ hidden_noNul]
    have e1 : (g_prompt_tag_hidden ++ q ++ [0]).take 12 = g_prompt_tag_hidden := by
      have hl : g_prompt_tag_hidden.length = 12 := rfl
      rw [List.append_assoc, ← hl, List.take_left]
    have e2 : (g_prompt_tag_hidden ++ [0]).take 12 = g_prompt_tag_hidden := by decide
    rw [e1, e2, lex_cmp_self]
  have hlen : wcslen (g_prompt_tag_hidden ++ (q ++ [0])) = 12 + q.length := by
    unfold wcslen
    rw [hc, List.length_append]
    rfl
  unfold tagged_prompt.is_tagged default_char_count g_prompt_tags
  rw [is_tagged_loop, wcslen_hidden, hlen]
  have h1 : ¬ (((12 : Nat) : Int) > (if (0 : Int) ≤ 0 then ((12 + q.length : Nat) : Int) else 0)) := by
    simp
  rw [if_neg h1]
  have h2 : (((12 : Nat) : Int)).toNat = 12 := rfl
  rw [h2, hcmp, if_pos rfl]
  rfl

/-- Method `prompt::set` with the implicit length stores the string and its
terminator. -/
theorem prompt_set_default (t : prompt) (v : List Nat) :
    (t.set (some v) default_char_count).get = some (cstr v 0 ++ [0]) := by
  have h1 : (if default_char_count ≤ 0 then (wcslen v : Int) else default_char_count)
      = (wcslen v : Int) := if_pos (by decide)
  simp only [prompt.set, prompt.clear, prompt.get, h1, Int.toNat_ofNat, wcsncpy]
  unfold wcslen
  rw [List.take_length, Nat.sub_self]
  simp

/-- C9: tagging is idempotent.  For every wide string `x` and whatever the
two objects held before, `tag(x)` stores a buffer `y`, and `tag` called on
`y` stores `y` again: no second marker is prefixed. -/
theorem tag_idempotent (t1 t2 : tagged_prompt) (x : List Nat) :
    ∃ y : List Nat, (tagged_prompt.tag t1 x).get = some y ∧
      (tagged_prompt.tag t2 y).get = some y := by
  by_cases hx : tagged_prompt.is_tagged x default_char_count = 0
  · refine ⟨g_prompt_tag_hidden ++ (cstr x 0 ++ [0]), ?_, ?_⟩
    · unfold tagged_prompt.tag
      simp only [hx, ne_eq, not_true_eq_false, if_false, prompt.get, wcscat, wcscpy]
      rw [cstr_terminated _ (cstr_noNul _ _), cstr_self _ hidden_noNul]
    · have ht := is_tagged_hidden (cstr x 0) (cstr_noNul x 0)
      have hne : tagged_prompt.is_tagged (g_prompt_tag_hidden ++ (cstr x 0 ++ [0]))
          default_char_count ≠ 0 := by rw [ht]; decide
      have hc : cstr (g_prompt_tag_hidden ++ (cstr x 0 ++ [0])) 0
          = g_prompt_tag_hidden ++ cstr x 0 := by
        have := cstr_terminated (g_prompt_tag_hidden ++ cstr x 0)
          (noNul_append hidden_noNul (cstr_noNul x 0))
        simpa using this
      unfold tagged_prompt.tag
      rw [if_pos hne, prompt_set_default, hc, List.append_assoc]
  · refine ⟨cstr x 0 ++ [0], ?_, ?_⟩
    · unfold tagged_prompt.tag
      rw [if_pos hx, prompt_set_default]
    · have hc : cstr (cstr x 0 ++ [0]) 0 = cstr x 0 := cstr_terminated _ (cstr_noNul x 0)
      have hx2 : tagged_prompt.is_tagged (cstr x 0 ++ [0]) default_char_count ≠ 0 := by
        rw [is_tagged_congr _ x _ hc]
        exact hx
      unfold tagged_prompt.tag
      rw [if_pos hx2, prompt_set_default, hc]

/-- C10: tag round trip.  For a payload `p` that is not tagged, `tag(p)`
stores the hidden marker followed by `p`; `is_tagged` of that string is the
length of the hidden marker, 12; dropping that many characters gives `p`
back. -/
theorem tag_round_trip (t : tagged_prompt) (p : List Nat) (hp : NoNul p)
    (h : tagged_prompt.is_tagged p default_char_count = 0) :
    ∃ y : List Nat, (tagged_prompt.tag t p).get = some y ∧
      cstr y 0 = g_prompt_tag_hidden ++ p ∧
      tagged_prompt.is_tagged y default_char_count = (wcslen g_prompt_tag_hidden : Int) ∧
      wcslen g_prompt_tag_hidden = 12 ∧
      (cstr y 0).drop (tagged_prompt.is_tagged y default_char_count).toNat = p := by
  have hc : cstr (g_prompt_tag_hidden ++ (p ++ [0])) 0 = g_prompt_tag_hidden ++ p := by
    have := cstr_terminated (g_prompt_tag_hidden ++ p) (noNul_append hidden_noNul hp)
    simpa using this
  have ht := is_tagged_hidden p hp
  refine ⟨g_prompt_tag_hidden ++ (p ++ [0]), ?_, hc, ?_, wcslen_hidden, ?_⟩
  · unfold tagged_prompt.tag
    simp only [h, ne_eq, not_true_eq_false, if_false, prompt.get, wcscat, wcscpy]
    rw [cstr_terminated _ (cstr_noNul _ _), cstr_self _ hidden_noNul, cstr_self _ hp]
  · rw [ht, wcslen_hidden]
    rfl
  · rw [ht, hc]
    have hl : ((12 : Int)).toNat = g_prompt_tag_hidden.length := rfl
    rw [hl, List.drop_left]

/-- C10, witness: the payload `"myprompt"`. -/
theorem tag_round_trip_witness :
    ∃ y : List Nat,
      (tagged_prompt.tag { m_data := none } [109, 121, 112, 114, 111, 109, 112, 116]).get
        = some y ∧
      cstr y 0 = g_prompt_tag_hidden ++ [109, 121, 112, 114, 111, 109, 112, 116] ∧
      tagged_prompt.is_tagged y default_char_count = (wcslen g_prompt_tag_hidden : Int) ∧
      wcslen g_prompt_tag_hidden = 12 ∧
      (cstr y 0).drop (tagged_prompt.is_tagged y default_char_count).toNat
        = [109, 121, 112, 114, 111, 109, 112, 116] :=
  tag_round_trip { m_data := none } [109, 121, 112, 114, 111, 109, 112, 116]
    (by decide) (by decide)

/-! ### `prompt::set` -/

theorem getElem?_after (s post : List Nat) (hp : post ≠ []) :
    (s ++ post)[s.length]? = some (post.headD 0) := by
  rw [List.getElem?_append_right (le_refl _)]
  cases post with
  | nil => exact absurd rfl hp
  | cons x xs => simp

/-- What `prompt::set` stores for a non-null source: the text, some NULs
written by `wcsncpy` when the source is shorter than the count, and the
terminator. -/
theorem prompt_set_get (t : prompt) (chars : List Nat) (n : Int) :
    ∃ pad : List Nat, (∀ c ∈ pad, c = 0) ∧
      (t.set (some chars) n).get
        = some ((if n > 0 then (cstr chars 0).take n.toNat else cstr chars 0)
            ++ (pad ++ [0])) := by
  by_cases hn : n > 0
  · refine ⟨List.replicate (n.toNat - wcslen chars) 0, ?_, ?_⟩
    · intro c hc
      exact List.eq_of_mem_replicate hc
    · have h1 : (if n ≤ 0 then (wcslen chars : Int) else n) = n := if_neg (by omega)
      simp only [prompt.set, prompt.clear, prompt.get, h1, wcsncpy, if_pos hn,
        List.append_assoc]
  · refine ⟨[], ?_, ?_⟩
    · intro c hc
      exact absurd hc (List.not_mem_nil _)
    · have h1 : (if n ≤ 0 then (wcslen chars : Int) else n) = (wcslen chars : Int) :=
        if_pos (by omega)
      simp only [prompt.set, prompt.clear, prompt.get, h1, wcsncpy, if_neg hn,
        Int.toNat_ofNat]
      unfold wcslen
      rw [List.take_length, Nat.sub_self]
      simp

theorem cstr_padded (text pad : List Nat) (ht : NoNul text) (hp : ∀ c ∈ pad, c = 0) :
    cstr (text ++ (pad ++ [0])) 0 = text := by
  have hh : (pad ++ [0]).headD 0 = 0 := by
    cases pad with
    | nil => rfl
    | cons x xs => simpa using hp x (by simp)
  have := cstr_mid [] text (pad ++ [0]) ht hh
  simpa using this

/-- Inside its limits `prompt.set_int` is `prompt.set`. -/
theorem prompt_set_int_eq (malloc : Nat → Bool) (t : prompt) (chars : List Nat) (n : Int)
    (hcount : (if n ≤ 0 then (wcslen chars : Int) else n) < INT_MAX)
    (hmalloc : malloc ((if n ≤ 0 then (wcslen chars : Int) else n) + 1).toNat = true) :
    prompt.set_int malloc t (some chars) n = some (t.set (some chars) n) := by
  have h1 : ¬ ((if n ≤ 0 then (wcslen chars : Int) else n) + 1 > INT_MAX) := by omega
  simp only [prompt.set_int, prompt.set, h1, if_false, hmalloc]
  rfl

/-- C18, as stated, fails at the limits of the machine.  With the count
`INT_MAX` the sum `char_count + 1` is no `int`, and when `malloc` returns
null the method writes through the null pointer: in both cases `set("a", n)`
has no defined result, so no set value. -/
theorem prompt_set_bounded_copy_counterexample :
    prompt.set_int (fun _ => true) { m_data := none } (some [97]) 2147483647 = none ∧
    prompt.set_int (fun _ => false) { m_data := none } (some [97]) 1 = none := by
  decide

/-- C18, amended: `prompt::set(chars, n)` with `chars` non-null, a count (`n`
when `n > 0`, the length of `chars` when `n <= 0`) below `INT_MAX` and an
allocation of count + 1 characters that succeeds leaves the value set, and
`get()` is a NUL-terminated string equal to the first `min(n, len(chars))`
characters of `chars` when `n > 0` and to the whole of `chars` when `n <= 0`;
`set(nullptr, n)` leaves the value unset; the result never depends on what
the object held before. -/
theorem prompt_set_bounded_copy (malloc : Nat → Bool) (t : prompt) (chars : List Nat)
    (n : Int)
    (hcount : (if n ≤ 0 then (wcslen chars : Int) else n) < INT_MAX)
    (hmalloc : malloc ((if n ≤ 0 then (wcslen chars : Int) else n) + 1).toNat = true) :
    (∃ r : prompt, prompt.set_int malloc t (some chars) n = some r ∧
      r.is_set = true ∧
      ∃ buf : List Nat, r.get = some buf ∧
        cstr buf 0 = (if n > 0 then (cstr chars 0).take n.toNat else cstr chars 0) ∧
        buf[(cstr buf 0).length]? = some 0) ∧
    prompt.set_int malloc t none n = some { m_data := none } ∧
    (∀ (t2 : prompt) (c : Option (List Nat)),
      prompt.set_int malloc t c n = prompt.set_int malloc t2 c n) := by
  obtain ⟨pad, hpad, hget⟩ := prompt_set_get t chars n
  have htext : NoNul (if n > 0 then (cstr chars 0).take n.toNat else cstr chars 0) := by
    by_cases hn : n > 0
    · rw [if_pos hn]
      exact noNul_of_sublist (List.take_sublist _ _) (cstr_noNul chars 0)
    · rw [if_neg hn]
      exact cstr_noNul chars 0
  have hc := cstr_padded _ pad htext hpad
  refine ⟨⟨t.set (some chars) n, prompt_set_int_eq malloc t chars n hcount hmalloc, ?_,
    _, hget, hc, ?_⟩, rfl, fun _ _ => rfl⟩
  · have : (t.set (some chars) n).m_data ≠ none := by
      have h := hget
      unfold prompt.get at h
      rw [h]
      simp
    simp [prompt.is_set, this]
  · rw [hc, getElem?_after _ _ (by simp)]
    cases pad with
    | nil => rfl
    | cons x xs =>
      have := hpad x (by simp)
      simp [this]

/-- C18, witness: `set("abc", 2)` on an object that holds `"x"` stores
`"ab"`. -/
theorem prompt_set_bounded_copy_witness :
    ∃ r : prompt, prompt.set_int (fun _ => true) { m_data := some [120, 0] }
        (some [97, 98, 99]) 2 = some r ∧
      r.is_set = true ∧
      ∃ buf : List Nat, r.get = some buf ∧
        cstr buf 0 = (if (2 : Int) > 0 then (cstr [97, 98, 99] 0).take (2 : Int).toNat
          else cstr [97, 98, 99] 0) ∧
        buf[(cstr buf 0).length]? = some 0 :=
  (prompt_set_bounded_copy (fun _ => true) { m_data := some [120, 0] } [97, 98, 99] 2
    (by decide) rfl).1

/-! ### `tagged_prompt::is_tagged` -/

theorem lex_cmp_eq_zero (a : List Nat) : ∀ b : List Nat, lex_cmp a b = 0 ↔ a = b := by
  induction a with
  | nil =>
    intro b
    cases b with
    | nil => simp [lex_cmp]
    | cons y ys => simp [lex_cmp]
  | cons x xs ih =>
    intro b
    cases b with
    | nil => simp [lex_cmp]
    | cons y ys =>
      rw [lex_cmp]
      by_cases h1 : x < y
      · rw [if_pos h1]
        simp
        omega
      · rw [if_neg h1]
        by_cases h2 : y < x
        · rw [if_pos h2]
          simp
          omega
        · rw [if_neg h2, ih ys]
          have hxy : x = y := by omega
          simp [hxy]

/-- Comparing the first characters of a string, terminator included, with a
NUL-free marker is comparing the string's own first characters with it. -/
theorem take_terminated_eq (s h : List Nat) (hh : NoNul h) :
    (s ++ [0]).take h.length = h ↔ s.take h.length = h := by
  by_cases hl : h.length ≤ s.length
  · rw [List.take_append_of_le_length hl]
  · have hlt : s.length < h.length := by omega
    constructor
    · intro heq
      have hmem : (0 : Nat) ∈ (s ++ [0]).take h.length := by
        rw [List.take_of_length_le (by simp; omega)]
        simp
      rw [heq] at hmem
      exact absurd rfl (hh 0 hmem)
    · intro heq
      have := congrArg List.length heq
      rw [List.length_take] at this
      omega

theorem wcsncmp_marker (chars h : List Nat) (hh : NoNul h) :
    wcsncmp chars h h.length = 0 ↔ (cstr chars 0).take h.length = h := by
  unfold wcsncmp
  rw [lex_cmp_eq_zero, cstr_self h hh]
  have e : (h ++ [0]).take h.length = h := List.take_left' rfl
  rw [e]
  exact take_terminated_eq _ h hh

theorem tag_noNul : NoNul g_prompt_tag := by decide

theorem wcslen_tag : wcslen g_prompt_tag = 13 := by decide

/-- The value of `is_tagged` for an effective length `m`. -/
theorem is_tagged_loop_eq (chars : List Nat) (m : Int) :
    is_tagged_loop chars m g_prompt_tags
      = if 12 ≤ m ∧ (cstr chars 0).take 12 = g_prompt_tag_hidden then 12
        else if 13 ≤ m ∧ (cstr chars 0).take 13 = g_prompt_tag then 13
        else 0 := by
  have hh := wcsncmp_marker chars g_prompt_tag_hidden hidden_noNul
  have ht := wcsncmp_marker chars g_prompt_tag tag_noNul
  have hl1 : g_prompt_tag_hidden.length = 12 := rfl
  have hl2 : g_prompt_tag.length = 13 := rfl
  rw [hl1] at hh
  rw [hl2] at ht
  have e12 : (((12 : Nat) : Int)).toNat = 12 := rfl
  have e13 : (((13 : Nat) : Int)).toNat = 13 := rfl
  unfold g_prompt_tags
  rw [is_tagged_loop, is_tagged_loop, is_tagged_loop, wcslen_hidden, wcslen_tag]
  simp only [e12, e13, hh, ht]
  have g12 : (((12 : Nat) : Int) > m) ↔ ¬ (12 ≤ m) := by omega
  have g13 : (((13 : Nat) : Int) > m) ↔ ¬ (13 ≤ m) := by omega
  simp only [g12, g13]
  by_cases h12 : 12 ≤ m <;> by_cases h13 : 13 ≤ m <;>
    by_cases c12 : (cstr chars 0).take 12 = g_prompt_tag_hidden <;>
    by_cases c13 : (cstr chars 0).take 13 = g_prompt_tag <;>
    simp [h12, h13, c12, c13]

/-- C13: with `m` the effective length (`char_count` if positive, else the
string length), `is_tagged` returns 12 when the hidden marker fits in `m`
and is a prefix of `chars`; otherwise 13 when `"@CLINK_PROMPT"` fits in `m`
and is a prefix of `chars`; otherwise 0.  So the result is the length of the
first recognized marker that prefixes `chars` within `m`, and it is positive
exactly when there is one. -/
theorem is_tagged_spec (chars : List Nat) (char_count : Int) :
    tagged_prompt.is_tagged chars char_count
      = (if 12 ≤ (if char_count ≤ 0 then (wcslen chars : Int) else char_count)
            ∧ (cstr chars 0).take 12 = g_prompt_tag_hidden then 12
        else if 13 ≤ (if char_count ≤ 0 then (wcslen chars : Int) else char_count)
            ∧ (cstr chars 0).take 13 = g_prompt_tag then 13
        else 0) ∧
    (0 < tagged_prompt.is_tagged chars char_count ↔
      (12 ≤ (if char_count ≤ 0 then (wcslen chars : Int) else char_count)
          ∧ (cstr chars 0).take 12 = g_prompt_tag_hidden) ∨
      (13 ≤ (if char_count ≤ 0 then (wcslen chars : Int) else char_count)
          ∧ (cstr chars 0).take 13 = g_prompt_tag)) ∧
    g_prompt_tag_hidden.length = 12 ∧ g_prompt_tag.length = 13 := by
  have h : tagged_prompt.is_tagged chars char_count
      = is_tagged_loop chars (if char_count ≤ 0 then (wcslen chars : Int) else char_count)
          g_prompt_tags := rfl
  rw [h, is_tagged_loop_eq]
  refine ⟨rfl, ?_, rfl, rfl⟩
  constructor
  · intro hpos
    by_cases c1 : 12 ≤ (if char_count ≤ 0 then (wcslen chars : Int) else char_count)
          ∧ (cstr chars 0).take 12 = g_prompt_tag_hidden
    · exact Or.inl c1
    · rw [if_neg c1] at hpos
      by_cases c2 : 13 ≤ (if char_count ≤ 0 then (wcslen chars : Int) else char_count)
            ∧ (cstr chars 0).take 13 = g_prompt_tag
      · exact Or.inr c2
      · rw [if_neg c2] at hpos
        exact absurd hpos (by decide)
  · intro hor
    rcases hor with c1 | c2
    · rw [if_pos c1]
      decide
    · by_cases c1 : 12 ≤ (if char_count ≤ 0 then (wcslen chars : Int) else char_count)
          ∧ (cstr chars 0).take 12 = g_prompt_tag_hidden
      · rw [if_pos c1]
        decide
      · rw [if_neg c1, if_pos c2]
        decide

/-- C14, as stated, fails at the length 0: `is_tagged(chars, 0)` takes the
length of the string instead, so a string that starts with the hidden marker
is reported as tagged although 0 is smaller than the marker's length. -/
theorem is_tagged_short_counterexample :
    tagged_prompt.is_tagged (g_prompt_tag_hidden ++ [102, 111, 111]) 0 = 12 ∧
    tagged_prompt.is_tagged (g_prompt_tag ++ [102, 111, 111]) 0 = 13 := by
  decide

/-- C14, amended: for every candidate length from 1 up to a marker's length
minus 1, that marker is not reported: with `0 < length < 12` the result is 0
whatever the buffer holds, and with `0 < length < 13` the result is not 13. -/
theorem is_tagged_short (chars : List Nat) (char_count : Int) (hpos : 0 < char_count) :
    (char_count < 12 → tagged_prompt.is_tagged chars char_count = 0) ∧
    (char_count < 13 → tagged_prompt.is_tagged chars char_count ≠ 13) := by
  have h : tagged_prompt.is_tagged chars char_count
      = is_tagged_loop chars (if char_count ≤ 0 then (wcslen chars : Int) else char_count)
          g_prompt_tags := rfl
  have hm : (if char_count ≤ 0 then (wcslen chars : Int) else char_count) = char_count :=
    if_neg (by omega)
  rw [h, hm, is_tagged_loop_eq]
  constructor
  · intro hlt
    have n12 : ¬ (12 ≤ char_count ∧ (cstr chars 0).take 12 = g_prompt_tag_hidden) :=
      fun c => by omega
    have n13 : ¬ (13 ≤ char_count ∧ (cstr chars 0).take 13 = g_prompt_tag) :=
      fun c => by omega
    rw [if_neg n12, if_neg n13]
  · intro hlt
    have n13 : ¬ (13 ≤ char_count ∧ (cstr chars 0).take 13 = g_prompt_tag) :=
      fun c => by omega
    by_cases c1 : 12 ≤ char_count ∧ (cstr chars 0).take 12 = g_prompt_tag_hidden
    · rw [if_pos c1]
      decide
    · rw [if_neg c1, if_neg n13]
      decide

/-- C14, witness: with the length 11 a buffer that goes on with the full
hidden marker is not tagged. -/
theorem is_tagged_short_witness :
    tagged_prompt.is_tagged (g_prompt_tag_hidden ++ [102, 111, 111]) 11 = 0 :=
  (is_tagged_short (g_prompt_tag_hidden ++ [102, 111, 111]) 11 (by decide)).1 (by decide)

/-! ### `tagged_prompt::set` -/

/-- C12: when `is_tagged(chars, length)` is 0, `tagged_prompt::set(chars,
length)` leaves the value unset, whatever the object held before. -/
theorem tagged_set_rejects (t : tagged_prompt) (chars : List Nat) (char_count : Int)
    (h : tagged_prompt.is_tagged chars char_count = 0) :
    (tagged_prompt.set t chars char_count).is_set = false ∧
    (tagged_prompt.set t chars char_count).get = none := by
  unfold tagged_prompt.set
  simp only [h, ne_eq, not_true_eq_false, if_false]
  exact ⟨rfl, rfl⟩

/-- C12, witness: an object that holds `"x"` is unset after `set("foo")`. -/
theorem tagged_set_rejects_witness :
    (tagged_prompt.set { m_data := some [120, 0] } [102, 111, 111] 0).is_set = false ∧
    (tagged_prompt.set { m_data := some [120, 0] } [102, 111, 111] 0).get = none :=
  tagged_set_rejects { m_data := some [120, 0] } [102, 111, 111] 0 (by decide)

theorem cstr_drop (chars : List Nat) (k : Nat) (hk : k ≤ (cstr chars 0).length) :
    cstr (chars.drop k) 0 = (cstr chars 0).drop k := by
  have hsplit : chars = cstr chars 0 ++ chars.dropWhile (fun c => c != 0) := by
    unfold cstr
    rw [List.drop_zero, List.takeWhile_append_dropWhile]
  have hhead : (chars.dropWhile (fun c => c != 0)).headD 0 = 0 := by
    cases hd : chars.dropWhile (fun c => c != 0) with
    | nil => rfl
    | cons r rs =>
      have hne : chars.dropWhile (fun c => c != 0) ≠ [] := by simp [hd]
      have := List.head_dropWhile_not (fun c => c != 0) chars hne
      simp only [hd, List.head_cons] at this
      simpa using this
  have hd : chars.drop k
      = (cstr chars 0).drop k ++ chars.dropWhile (fun c => c != 0) := by
    conv_lhs => rw [hsplit]
    rw [List.drop_append_of_le_length hk]
  have hn : NoNul ((cstr chars 0).drop k) :=
    noNul_of_sublist (List.drop_sublist _ _) (cstr_noNul chars 0)
  have := cstr_mid [] ((cstr chars 0).drop k) _ hn hhead
  rw [hd]
  simpa using this

/-- A non-zero result of `is_tagged` is the length of a marker that the
string starts with. -/
theorem is_tagged_le_wcslen (chars : List Nat) (char_count : Int)
    (h : tagged_prompt.is_tagged chars char_count ≠ 0) :
    0 < tagged_prompt.is_tagged chars char_count ∧
    (tagged_prompt.is_tagged chars char_count).toNat ≤ (cstr chars 0).length := by
  have hdef : tagged_prompt.is_tagged chars char_count
      = is_tagged_loop chars (if char_count ≤ 0 then (wcslen chars : Int) else char_count)
          g_prompt_tags := rfl
  rw [hdef, is_tagged_loop_eq] at h ⊢
  by_cases c1 : 12 ≤ (if char_count ≤ 0 then (wcslen chars : Int) else char_count)
      ∧ (cstr chars 0).take 12 = g_prompt_tag_hidden
  · rw [if_pos c1]
    have := congrArg List.length c1.2
    rw [List.length_take] at this
    have hl : g_prompt_tag_hidden.length = 12 := rfl
    refine ⟨by decide, ?_⟩
    have e : ((12 : Int)).toNat = 12 := rfl
    rw [e]
    omega
  · rw [if_neg c1] at h ⊢
    by_cases c2 : 13 ≤ (if char_count ≤ 0 then (wcslen chars : Int) else char_count)
        ∧ (cstr chars 0).take 13 = g_prompt_tag
    · rw [if_pos c2]
      have := congrArg List.length c2.2
      rw [List.length_take] at this
      have hl : g_prompt_tag.length = 13 := rfl
      refine ⟨by decide, ?_⟩
      have e : ((13 : Int)).toNat = 13 := rfl
      rw [e]
      omega
    · rw [if_neg c2] at h
      exact absurd rfl h

/-- Away from the case `length == tag_length`, `tagged_prompt::set` stores
the characters between the marker and the length: `chars[t .. L)` for an
explicit `L > t`, and everything after the marker for an implicit length. -/
theorem tagged_set_payload (t : tagged_prompt) (chars : List Nat) (char_count : Int)
    (h : tagged_prompt.is_tagged chars char_count ≠ 0)
    (hL : char_count ≤ 0 ∨ tagged_prompt.is_tagged chars char_count < char_count) :
    ∃ buf : List Nat, (tagged_prompt.set t chars char_count).get = some buf ∧
      cstr buf 0
        = (if char_count > 0 then
            ((cstr chars 0).take char_count.toNat).drop
              (tagged_prompt.is_tagged chars char_count).toNat
          else (cstr chars 0).drop (tagged_prompt.is_tagged chars char_count).toNat) := by
  obtain ⟨hpos, hle⟩ := is_tagged_le_wcslen chars char_count h
  obtain ⟨pad, hpad, hget⟩ := prompt_set_get t.clear
    (chars.drop (tagged_prompt.is_tagged chars char_count).toNat)
    (char_count - tagged_prompt.is_tagged chars char_count)
  have hset : tagged_prompt.set t chars char_count
      = prompt.set t.clear (some (chars.drop (tagged_prompt.is_tagged chars char_count).toNat))
          (char_count - tagged_prompt.is_tagged chars char_count) := by
    unfold tagged_prompt.set
    simp only [h, ne_eq, not_false_eq_true, if_true]
  rw [hset]
  refine ⟨_, hget, ?_⟩
  rw [cstr_drop chars _ hle] at hget ⊢
  have hn : NoNul ((cstr chars 0).drop (tagged_prompt.is_tagged chars char_count).toNat) :=
    noNul_of_sublist (List.drop_sublist _ _) (cstr_noNul chars 0)
  by_cases hc : char_count > 0
  · have hd : char_count - tagged_prompt.is_tagged chars char_count > 0 := by omega
    rw [if_pos hd, if_pos hc]
    rw [cstr_padded _ pad (noNul_of_sublist (List.take_sublist _ _) hn) hpad]
    have e : char_count.toNat
        = (tagged_prompt.is_tagged chars char_count).toNat
          + (char_count - tagged_prompt.is_tagged chars char_count).toNat := by omega
    rw [e, List.drop_take]
    simp
  · have hd : ¬ (char_count - tagged_prompt.is_tagged chars char_count > 0) := by omega
    rw [if_neg hd, if_neg hc]
    exact cstr_padded _ pad hn hpad

/-- C11: the code at the failing input.  With `length` equal to the marker's
length, `char_count - tag_length` is 0, which `prompt::set` takes for "no
length given": for `"@CLINK_PROMPTfoo"` with length 13, and for the hidden
marker followed by `"foo"` with length 12, the stored value is `"foo"`, not
the empty payload `chars[t .. L)`. -/
theorem tagged_set_exact_length :
    tagged_prompt.is_tagged (g_prompt_tag ++ [102, 111, 111]) 13 = 13 ∧
    (tagged_prompt.set { m_data := none } (g_prompt_tag ++ [102, 111, 111]) 13).get
      = some [102, 111, 111, 0] ∧
    ((cstr (g_prompt_tag ++ [102, 111, 111]) 0).take 13).drop 13 = [] ∧
    tagged_prompt.is_tagged (g_prompt_tag_hidden ++ [102, 111, 111]) 12 = 12 ∧
    (tagged_prompt.set { m_data := none } (g_prompt_tag_hidden ++ [102, 111, 111]) 12).get
      = some [102, 111, 111, 0] ∧
    ((cstr (g_prompt_tag_hidden ++ [102, 111, 111]) 0).take 12).drop 12 = [] := by
  decide

/-! ### States of a `tagged_prompt` -/

/-- What `tagged_prompt::tag` stores: the string of `value` when it is tagged
already, the hidden marker followed by it otherwise; either way a string
that `is_tagged` accepts. -/
theorem tag_stores (t : tagged_prompt) (value : List Nat) :
    ∃ y : List Nat, (tagged_prompt.tag t value).get = some y ∧
      tagged_prompt.is_tagged y default_char_count ≠ 0 ∧
      (tagged_prompt.is_tagged value default_char_count = 0 →
        cstr y 0 = g_prompt_tag_hidden ++ cstr value 0) ∧
      (tagged_prompt.is_tagged value default_char_count ≠ 0 → cstr y 0 = cstr value 0) := by
  by_cases hx : tagged_prompt.is_tagged value default_char_count = 0
  · have hc : cstr (g_prompt_tag_hidden ++ (cstr value 0 ++ [0])) 0
        = g_prompt_tag_hidden ++ cstr value 0 := by
      have := cstr_terminated (g_prompt_tag_hidden ++ cstr value 0)
        (noNul_append hidden_noNul (cstr_noNul value 0))
      simpa using this
    refine ⟨g_prompt_tag_hidden ++ (cstr value 0 ++ [0]), ?_, ?_, fun _ => hc,
      fun h => absurd hx h⟩
    · unfold tagged_prompt.tag
      simp only [hx, ne_eq, not_true_eq_false, if_false, prompt.get, wcscat, wcscpy]
      rw [cstr_terminated _ (cstr_noNul _ _), cstr_self _ hidden_noNul]
    · rw [is_tagged_hidden (cstr value 0) (cstr_noNul value 0)]
      decide
  · have hc : cstr (cstr value 0 ++ [0]) 0 = cstr value 0 :=
      cstr_terminated _ (cstr_noNul value 0)
    refine ⟨cstr value 0 ++ [0], ?_, ?_, fun h => absurd h hx, fun _ => hc⟩
    · unfold tagged_prompt.tag
      rw [if_pos hx, prompt_set_default]
    · rw [is_tagged_congr _ value _ hc]
      exact hx

/-- C15, as stated, fails in three ways.  `set` stores the payload without
its marker: after `set` of the hidden marker followed by `"foo"` the value is
set and is `"foo"`.  `tag` of a value that carries the visible marker
`"@CLINK_PROMPT"` stores it as it is, with no hidden marker.  And `tag` of a
value that starts with two hidden markers stores both. -/
theorem tagged_prompt_marked_counterexample :
    ((tagged_prompt.run [tagged_call.set (g_prompt_tag_hidden ++ [102, 111, 111]) 0]).is_set
        = true ∧
      (tagged_prompt.run [tagged_call.set (g_prompt_tag_hidden ++ [102, 111, 111]) 0]).get
        = some [102, 111, 111, 0] ∧
      tagged_prompt.is_tagged [102, 111, 111, 0] 0 = 0) ∧
    ((tagged_prompt.run [tagged_call.tag (g_prompt_tag ++ [102, 111, 111])]).get
        = some (g_prompt_tag ++ [102, 111, 111, 0]) ∧
      (g_prompt_tag ++ [102, 111, 111, 0]).take 12 ≠ g_prompt_tag_hidden) ∧
    (tagged_prompt.run
        [tagged_call.tag (g_prompt_tag_hidden ++ (g_prompt_tag_hidden ++ [102, 111, 111]))]).get
      = some (g_prompt_tag_hidden ++ (g_prompt_tag_hidden ++ [102, 111, 111, 0])) := by
  decide

/-- C15, amended: in every state left by a `tag` call, whatever the state
before it, and so in every state reached from the empty value by a sequence
of `set` and `tag` calls that ends with a `tag` call, the value is set and
`get()` is prefixed with a recognized marker, the hidden one or
`"@CLINK_PROMPT"`: it is the hidden marker followed by the argument when the
argument was not tagged, and the argument itself when it was. -/
theorem tagged_prompt_marked (t : tagged_prompt) (calls : List tagged_call)
    (value : List Nat) :
    ((tagged_prompt.tag t value).is_set = true ∧
      ∃ y : List Nat, (tagged_prompt.tag t value).get = some y ∧
        ((cstr y 0).take 12 = g_prompt_tag_hidden ∨ (cstr y 0).take 13 = g_prompt_tag) ∧
        0 < tagged_prompt.is_tagged y default_char_count ∧
        (tagged_prompt.is_tagged value default_char_count = 0 →
          cstr y 0 = g_prompt_tag_hidden ++ cstr value 0) ∧
        (tagged_prompt.is_tagged value default_char_count ≠ 0 → cstr y 0 = cstr value 0)) ∧
    tagged_prompt.run (calls ++ [tagged_call.tag value])
      = tagged_prompt.tag (tagged_prompt.run calls) value := by
  have hrun : tagged_prompt.run (calls ++ [tagged_call.tag value])
      = tagged_prompt.tag (tagged_prompt.run calls) value := by
    unfold tagged_prompt.run
    rw [List.foldl_append]
    rfl
  refine ⟨?_, hrun⟩
  obtain ⟨y, hget, hne, h1, h2⟩ := tag_stores t value
  have hpos := (is_tagged_le_wcslen y default_char_count hne).1
  have hdef : tagged_prompt.is_tagged y default_char_count
      = is_tagged_loop y (if default_char_count ≤ 0 then (wcslen y : Int)
          else default_char_count) g_prompt_tags := rfl
  have hpre : (cstr y 0).take 12 = g_prompt_tag_hidden ∨ (cstr y 0).take 13 = g_prompt_tag := by
    rw [hdef, is_tagged_loop_eq] at hne
    by_cases c1 : 12 ≤ (if default_char_count ≤ 0 then (wcslen y : Int)
        else default_char_count) ∧ (cstr y 0).take 12 = g_prompt_tag_hidden
    · exact Or.inl c1.2
    · rw [if_neg c1] at hne
      by_cases c2 : 13 ≤ (if default_char_count ≤ 0 then (wcslen y : Int)
          else default_char_count) ∧ (cstr y 0).take 13 = g_prompt_tag
      · exact Or.inr c2.2
      · rw [if_neg c2] at hne
        exact absurd rfl hne
  refine ⟨?_, y, hget, hpre, hpos, h1, h2⟩
  have hm : (tagged_prompt.tag t value).m_data = some y := hget
  simp [prompt.is_set, hm]

/-- C15, witness: after `set` of a tagged string and then `tag("my")` the
value is the hidden marker followed by `"my"`. -/
theorem tagged_prompt_marked_witness :
    (tagged_prompt.run ([tagged_call.set (g_prompt_tag ++ [102]) 0]
        ++ [tagged_call.tag [109, 121]])).get
      = some (g_prompt_tag_hidden ++ [109, 121, 0]) ∧
    tagged_prompt.is_tagged [109, 121] default_char_count = 0 ∧
    ∃ y : List Nat,
      (tagged_prompt.tag (tagged_prompt.run [tagged_call.set (g_prompt_tag ++ [102]) 0])
        [109, 121]).get = some y ∧
      ((cstr y 0).take 12 = g_prompt_tag_hidden ∨ (cstr y 0).take 13 = g_prompt_tag) ∧
      0 < tagged_prompt.is_tagged y default_char_count ∧
      (tagged_prompt.is_tagged [109, 121] default_char_count = 0 →
        cstr y 0 = g_prompt_tag_hidden ++ cstr [109, 121] 0) ∧
      (tagged_prompt.is_tagged [109, 121] default_char_count ≠ 0 →
        cstr y 0 = cstr [109, 121] 0) :=
  ⟨by decide, by decide,
    (tagged_prompt_marked (tagged_prompt.run [tagged_call.set (g_prompt_tag ++ [102]) 0])
      [tagged_call.set (g_prompt_tag ++ [102]) 0] [109, 121]).1.2⟩

/-! ### `extract_from_console` -/

theorem takeWhile_before_nul (chars post : List Nat) (hp : post.headD 0 = 0) :
    (chars ++ post).takeWhile (fun c => c != 0) = chars.takeWhile (fun c => c != 0) := by
  induction chars with
  | nil =>
    cases post with
    | nil => rfl
    | cons x xs =>
      have hx : x = 0 := by simpa using hp
      simp [hx]
  | cons c cs ih =>
    by_cases hc : c = 0
    · simp [hc]
    · simp [hc, ih]

/-- The buffer of `extract_from_console` after a read of fewer than 256
characters holds, as a string, the characters read up to the first NUL. -/
theorem console_buffer_cstr (chars : List Nat) (hlen : chars.length < 256) :
    cstr (((chars ++ (List.replicate 256 0).drop chars.length)).set chars.length 0) 0
      = chars.takeWhile (fun c => c != 0) := by
  have hz : (List.replicate 256 0).drop chars.length
      = 0 :: List.replicate (255 - chars.length) 0 := by
    rw [List.drop_replicate]
    have e : 256 - chars.length = (255 - chars.length) + 1 := by omega
    rw [e, List.replicate_succ]
  rw [hz, set_mid chars _ 0 0 _ rfl]
  unfold cstr
  rw [List.drop_zero]
  exact takeWhile_before_nul chars _ rfl

/-- C16, as stated, fails in two ways.  A cursor column of exactly 256 does
not exceed 256, yet the guard `length >= sizeof_array(buffer)` returns an
unset prompt although both queries succeed.  And the text is cut at the
first NUL among the characters read, because `ret.set(buffer)` measures the
buffer with `wcslen`: after reading `C`, NUL, `>` the text is `"C"`. -/
theorem extract_from_console_counterexample :
    (extract_from_console { info := some 256, read := some (List.replicate 256 65) }).is_set
      = false ∧
    (extract_from_console { info := some 3, read := some [67, 0, 62] }).get
      = some [67, 0] := by
  decide

/-- C16, amended: `extract_from_console` returns an unset prompt when the
buffer-info query fails, when the read fails, or when the cursor column is
negative or at least 256 (the capacity of the buffer, which must also hold
the terminator); in every other case, the read having stored no more
characters than asked, it returns a set prompt whose text is the characters
read up to the first NUL among them, so all of them when none is NUL. -/
theorem extract_from_console_spec (con : console) :
    (con.info = none → (extract_from_console con).is_set = false) ∧
    (∀ X : Int, con.info = some X → -32768 ≤ X → X ≤ 32767 → (X < 0 ∨ 256 ≤ X) →
      (extract_from_console con).is_set = false) ∧
    (con.read = none → (extract_from_console con).is_set = false) ∧
    (∀ (X : Int) (chars : List Nat), con.info = some X → 0 ≤ X → X < 256 →
      con.read = some chars → (chars.length : Int) ≤ X →
      (extract_from_console con).is_set = true ∧
      ∃ buf : List Nat, (extract_from_console con).get = some buf ∧
        cstr buf 0 = chars.takeWhile (fun c => c != 0) ∧
        buf[(cstr buf 0).length]? = some 0 ∧
        (NoNul chars → cstr buf 0 = chars)) := by
  refine ⟨?_, ?_, ?_, ?_⟩
  · intro h
    unfold extract_from_console
    rw [h]
    rfl
  · intro X h h1 h2 h3
    have hl : (X % 2 ^ 32).toNat ≥ 256 := by omega
    unfold extract_from_console
    rw [h]
    simp only [hl, if_true]
    rfl
  · intro h
    unfold extract_from_console
    rw [h]
    cases con.info with
    | none => rfl
    | some X =>
      simp only
      split
      · rfl
      · rfl
  · intro X chars h h0 h1 hr hc
    have hl : ¬ ((X % 2 ^ 32).toNat ≥ 256) := by omega
    have hlen : chars.length < 256 := by omega
    have hres : extract_from_console con
        = prompt.set { m_data := none }
            (some ((chars ++ (List.replicate 256 0).drop chars.length).set chars.length 0))
            default_char_count := by
      unfold extract_from_console
      rw [h, hr]
      simp only [hl, if_false]
    have hget := prompt_set_default { m_data := none }
      ((chars ++ (List.replicate 256 0).drop chars.length).set chars.length 0)
    rw [console_buffer_cstr chars hlen] at hget
    rw [← hres] at hget
    have hn : NoNul (chars.takeWhile (fun c => c != 0)) := by
      intro c hc
      have := List.mem_takeWhile_imp hc
      simpa using this
    have hc2 := cstr_terminated _ hn
    refine ⟨?_, _, hget, hc2, ?_, ?_⟩
    · have hm : (extract_from_console con).m_data
          = some (chars.takeWhile (fun c => c != 0) ++ [0]) := hget
      simp [prompt.is_set, hm]
    · rw [hc2, getElem?_after _ _ (by simp)]
      rfl
    · intro hnn
      rw [hc2, List.takeWhile_eq_self_iff]
      intro x hx
      simpa using hnn x hx

/-- C16, witness: with the cursor in column 3 and `"C:>"` read, the prompt is
set and its text is `"C:>"`. -/
theorem extract_from_console_spec_witness :
    (extract_from_console { info := some 3, read := some [67, 58, 62] }).is_set = true ∧
    ∃ buf : List Nat,
      (extract_from_console { info := some 3, read := some [67, 58, 62] }).get = some buf ∧
      cstr buf 0 = [67, 58, 62].takeWhile (fun c => c != 0) ∧
      buf[(cstr buf 0).length]? = some 0 ∧
      (NoNul [67, 58, 62] → cstr buf 0 = [67, 58, 62]) :=
  (extract_from_console_spec { info := some 3, read := some [67, 58, 62] }).2.2.2
    3 [67, 58, 62] rfl (by decide) (by decide) rfl (by decide)

/-! ### `host::filter_prompt` -/

/-- The ghost counter and the returned cursor do not change what the loop
computes. -/
theorem filter_prompt_loop_counted_fst (scan : List Nat → Nat × Nat) :
    ∀ (fuel : Nat) (lua out : List Nat) (next k : Nat),
      (filter_prompt_loop_counted scan fuel lua out next k).map (fun r => r.1)
        = filter_prompt_loop scan fuel lua out next := by
  intro fuel
  induction fuel with
  | zero =>
    intro lua out next k
    rw [filter_prompt_loop_counted, filter_prompt_loop]
    by_cases h0 : lua.getD next 0 = 0
    · rw [if_pos h0, if_pos h0]
      rfl
    · rw [if_neg h0, if_neg h0]
      rfl
  | succ fuel ih =>
    intro lua out next k
    rw [filter_prompt_loop_counted, filter_prompt_loop]
    by_cases h0 : lua.getD next 0 = 0
    · rw [if_pos h0, if_pos h0]
      rfl
    · rw [if_neg h0, if_neg h0]
      simp only
      split
      · exact ih _ _ _ _
      · exact ih _ _ _ _

theorem filter_prompt_loop_counted_done (scan : List Nat → Nat × Nat) (fuel : Nat)
    (lua out : List Nat) (next k : Nat) (h0 : lua.getD next 0 = 0) :
    filter_prompt_loop_counted scan fuel lua out next k = some (out, next, k) := by
  cases fuel with
  | zero => rw [filter_prompt_loop_counted, if_pos h0]
  | succ fuel => rw [filter_prompt_loop_counted, if_pos h0]

theorem filter_prompt_loop_counted_plain (scan : List Nat → Nat × Nat) (fuel : Nat)
    (lua out lua1 : List Nat) (next off sz k : Nat) (len : Int)
    (h0 : lua.getD next 0 ≠ 0) (hscan : scan (cstr lua next) = (off, sz))
    (hr : parse_backspaces lua next (off : Int) = (lua1, len))
    (hz : lua1.getD (next + off) 0 = 0) :
    filter_prompt_loop_counted scan (fuel + 1) lua out next k
      = filter_prompt_loop_counted scan fuel lua1 (str_cat_n out lua1 next buf_size len)
          (next + off + sz) (k + 1) := by
  have hcast : ((next + off : Nat) : Int) - (next : Int) = (off : Int) := by omega
  rw [filter_prompt_loop_counted, if_neg h0]
  simp only [hscan, hcast, hr, hz, ne_eq, not_true_eq_false, if_false]

theorem filter_prompt_loop_counted_ansi (scan : List Nat → Nat × Nat) (fuel : Nat)
    (lua out lua1 lua2 : List Nat) (next off sz k : Nat) (len len2 : Int)
    (h0 : lua.getD next 0 ≠ 0) (hscan : scan (cstr lua next) = (off, sz))
    (hr : parse_backspaces lua next (off : Int) = (lua1, len))
    (hnz : lua1.getD (next + off) 0 ≠ 0)
    (hr2 : parse_backspaces lua1 (next + off) (sz : Int) = (lua2, len2)) :
    filter_prompt_loop_counted scan (fuel + 1) lua out next k
      = filter_prompt_loop_counted scan fuel lua2
          (str_cat (str_cat_n (str_cat (str_cat_n out lua1 next buf_size len) [1] 0 buf_size)
            lua2 (next + off) buf_size len2) [2] 0 buf_size)
          (next + off + sz) (k + 1) := by
  have hcast : ((next + off : Nat) : Int) - (next : Int) = (off : Int) := by omega
  rw [filter_prompt_loop_counted, if_neg h0]
  simp only [hscan, hcast, hr, hr2, hnz, ne_eq, not_false_eq_true, if_true]
  rfl

/-- The observed loop on a string that the scanner splits as
`p0 e1 p1 ... ek pk`: it stops with the cursor on the terminator, after one
iteration per escape sequence and one more when `pk` is not empty. -/
theorem filter_prompt_loop_counted_spec (scan : List Nat → Nat × Nat) (last tail : List Nat)
    (htail : tail.headD 0 = 0) :
    ∀ (segs : List (List Nat × List Nat)) (pre X : List Nat) (extra k : Nat),
      NoNul X → NoNul (assemble segs last) → SplitsAs scan segs last →
      filter_prompt_loop_counted scan (segs.length + 1 + extra)
          (pre ++ (assemble segs last ++ tail)) (X.take capacity) pre.length k
        = some ((X ++ wrapped segs last).take capacity,
            pre.length + (assemble segs last).length,
            k + segs.length + (if last = [] then 0 else 1)) := by
  intro segs
  induction segs with
  | nil =>
    intro pre X extra k hX hs hsplit
    simp only [assemble, wrapped, SplitsAs] at hs hsplit ⊢
    have hfuel : ([] : List (List Nat × List Nat)).length + 1 + extra = extra + 1 := by
      simp; omega
    rw [hfuel]
    by_cases hl : last = []
    · subst hl
      have h0 : (pre ++ ([] ++ tail)).getD pre.length 0 = 0 := by
        rw [List.nil_append, getD_end _ _ _ rfl, htail]
      rw [filter_prompt_loop_counted_done _ _ _ _ _ _ h0]
      have : resolve [] = [] := by decide
      rw [this, List.append_nil]
      simp
    · obtain ⟨c, l, hcl⟩ := List.exists_cons_of_ne_nil hl
      have hc : c ≠ 0 := hs c (by simp [hcl])
      have h0 : (pre ++ (last ++ tail)).getD pre.length 0 ≠ 0 := by
        rw [hcl, List.cons_append, getD_mid _ _ _ _ rfl]
        exact hc
      have hscan : scan (cstr (pre ++ (last ++ tail)) pre.length) = (last.length, 0) := by
        rw [cstr_mid pre last tail hs htail]
        exact hsplit hl
      obtain ⟨gap, hlen, hmem, hcat⟩ := span_step pre last tail X hs hX
      have hz : (parse_backspaces (pre ++ (last ++ tail)) pre.length
          (last.length : Int)).1.getD (pre.length + last.length) 0 = 0 := by
        rw [hmem]
        have e : pre ++ (resolve last ++ (gap ++ tail)) = (pre ++ resolve last ++ gap) ++ tail := by
          simp
        rw [e, getD_end _ _ _ (by simp; omega), htail]
      have hr1 : parse_backspaces (pre ++ (last ++ tail)) pre.length (last.length : Int)
          = ((parse_backspaces (pre ++ (last ++ tail)) pre.length (last.length : Int)).1,
             (parse_backspaces (pre ++ (last ++ tail)) pre.length (last.length : Int)).2) := rfl
      rw [filter_prompt_loop_counted_plain scan extra _ _ _ pre.length last.length 0 k _ h0
        hscan hr1 hz, hcat, Nat.add_zero,
        filter_prompt_loop_counted_done _ _ _ _ _ _ hz]
      simp [hl]
  | cons pe rest ih =>
    intro pre X extra k hX hs hsplit
    obtain ⟨p, e⟩ := pe
    simp only [assemble, wrapped, SplitsAs] at hs hsplit ⊢
    obtain ⟨hne, hscan0, hrest⟩ := hsplit
    have hfuel : ((p, e) :: rest).length + 1 + extra = (rest.length + 1 + extra) + 1 := by
      simp; omega
    rw [hfuel]
    have hp : NoNul p := fun c hc => hs c (by simp [hc])
    have he : NoNul e := fun c hc => hs c (by simp [hc])
    have hr : NoNul (assemble rest last) := fun c hc => hs c (by simp [hc])
    obtain ⟨c, l, hcl⟩ := List.exists_cons_of_ne_nil hne
    have hc : c ≠ 0 := he c (by simp [hcl])
    have h0 : (pre ++ (p ++ (e ++ assemble rest last) ++ tail)).getD pre.length 0 ≠ 0 := by
      cases p with
      | nil =>
        rw [hcl]
        simp only [List.nil_append, List.cons_append]
        rw [getD_mid _ _ _ _ rfl]
        exact hc
      | cons d p2 =>
        simp only [List.cons_append]
        rw [getD_mid _ _ _ _ rfl]
        exact hp d (by simp)
    have hscan : scan (cstr (pre ++ (p ++ (e ++ assemble rest last) ++ tail)) pre.length)
        = (p.length, e.length) := by
      rw [cstr_mid pre _ tail hs htail]
      exact hscan0
    have hm1 : pre ++ (p ++ (e ++ assemble rest last) ++ tail)
        = pre ++ (p ++ (e ++ (assemble rest last ++ tail))) := by simp
    obtain ⟨gap, hlen, hmem, hcat⟩ :=
      span_step pre p (e ++ (assemble rest last ++ tail)) X hp hX
    rw [← hm1] at hmem hcat
    have hm2 : pre ++ (resolve p ++ (gap ++ (e ++ (assemble rest last ++ tail))))
        = (pre ++ (resolve p ++ gap)) ++ (e ++ (assemble rest last ++ tail)) := by simp
    have hl2 : (pre ++ (resolve p ++ gap)).length = pre.length + p.length := by
      simp; omega
    have hnz : (parse_backspaces (pre ++ (p ++ (e ++ assemble rest last) ++ tail)) pre.length
        (p.length : Int)).1.getD (pre.length + p.length) 0 ≠ 0 := by
      rw [hmem, hm2, hcl, List.cons_append, getD_mid _ _ _ _ hl2.symm]
      exact hc
    have hX1 : NoNul (X ++ resolve p) := noNul_append hX (resolve_noNul p hp)
    have hX2 : NoNul (X ++ resolve p ++ [1]) := noNul_append hX1 noNul_one
    obtain ⟨gap2, hlen2, hmem2, hcat2⟩ :=
      span_step (pre ++ (resolve p ++ gap)) e (assemble rest last ++ tail)
        (X ++ resolve p ++ [1]) he hX2
    rw [← hm2, ← hmem, hl2] at hmem2 hcat2
    have hX3 : NoNul (X ++ resolve p ++ [1] ++ resolve e) :=
      noNul_append hX2 (resolve_noNul e he)
    have hX4 : NoNul (X ++ resolve p ++ [1] ++ resolve e ++ [2]) :=
      noNul_append hX3 noNul_two
    have hr1 : parse_backspaces (pre ++ (p ++ (e ++ assemble rest last) ++ tail)) pre.length
          (p.length : Int)
        = ((parse_backspaces (pre ++ (p ++ (e ++ assemble rest last) ++ tail)) pre.length
              (p.length : Int)).1,
           (parse_backspaces (pre ++ (p ++ (e ++ assemble rest last) ++ tail)) pre.length
              (p.length : Int)).2) := rfl
    have hr2 : parse_backspaces (parse_backspaces (pre ++ (p ++ (e ++ assemble rest last) ++ tail))
          pre.length (p.length : Int)).1 (pre.length + p.length) (e.length : Int)
        = ((parse_backspaces (parse_backspaces (pre ++ (p ++ (e ++ assemble rest last) ++ tail))
              pre.length (p.length : Int)).1 (pre.length + p.length) (e.length : Int)).1,
           (parse_backspaces (parse_backspaces (pre ++ (p ++ (e ++ assemble rest last) ++ tail))
              pre.length (p.length : Int)).1 (pre.length + p.length) (e.length : Int)).2) := rfl
    rw [filter_prompt_loop_counted_ansi scan _ _ _ _ _ pre.length p.length e.length k _ _ h0
      hscan hr1 hnz hr2, hcat, str_cat_take _ _ hX1 noNul_one, hcat2,
      str_cat_take _ _ hX3 noNul_two, hmem2]
    have hm3 : pre ++ (resolve p ++ gap) ++ (resolve e ++ (gap2 ++ (assemble rest last ++ tail)))
        = (pre ++ (resolve p ++ gap) ++ (resolve e ++ gap2)) ++ (assemble rest last ++ tail) := by
      simp
    have hl3 : pre.length + p.length + e.length
        = (pre ++ (resolve p ++ gap) ++ (resolve e ++ gap2)).length := by
      simp; omega
    rw [hm3, hl3, ih _ _ extra (k + 1) hX4 hr hrest, ← hl3]
    have e1 : pre.length + p.length + e.length + (assemble rest last).length
        = pre.length + (p ++ (e ++ assemble rest last)).length := by
      simp; omega
    have e2 : k + 1 + rest.length = k + ((p, e) :: rest).length := by
      simp; omega
    rw [e1, e2]
    simp

/-! ### Scanners that obey the contract -/

/-- A scanner that obeys the contract splits every string as
`p0 e1 p1 ... ek pk`. -/
theorem exists_split (scan : List Nat → Nat × Nat) (hc : ScannerContract scan) :
    ∀ (n : Nat) (s : List Nat), s.length ≤ n → NoNul s →
      ∃ (segs : List (List Nat × List Nat)) (last : List Nat),
        assemble segs last = s ∧ SplitsAs scan segs last := by
  intro n
  induction n with
  | zero =>
    intro s hn _
    have hs : s = [] := List.length_eq_zero.mp (by omega)
    subst hs
    exact ⟨[], [], rfl, fun h => absurd rfl h⟩
  | succ m ih =>
    intro s hn hs
    by_cases he : s = []
    · subst he
      exact ⟨[], [], rfl, fun h => absurd rfl h⟩
    · obtain ⟨hin, hnone⟩ := hc s hs he
      by_cases hz : (scan s).2 = 0
      · refine ⟨[], s, rfl, fun _ => ?_⟩
        exact Prod.ext (hnone hz) hz
      · have hpos : 0 < s.length := List.length_pos.mpr he
        have hr : NoNul (s.drop ((scan s).1 + (scan s).2)) :=
          noNul_of_sublist (List.drop_sublist _ _) hs
        have hrl : (s.drop ((scan s).1 + (scan s).2)).length ≤ m := by
          rw [List.length_drop]
          omega
        obtain ⟨segs, last, hasm, hsp⟩ := ih _ hrl hr
        have hsplit : s.take (scan s).1
            ++ ((s.drop (scan s).1).take (scan s).2 ++ assemble segs last) = s := by
          rw [hasm, ← List.drop_drop, List.take_append_drop, List.take_append_drop]
        refine ⟨(s.take (scan s).1, (s.drop (scan s).1).take (scan s).2) :: segs, last,
          hsplit, ?_, ?_, hsp⟩
        · intro hnil
          have := congrArg List.length hnil
          rw [List.length_take, List.length_drop] at this
          simp only [List.length_nil] at this
          omega
        · rw [hsplit]
          refine Prod.ext ?_ ?_
          · simp only [List.length_take]
            omega
          · simp only [List.length_take, List.length_drop]
            omega

theorem scan_sgr_contract : ScannerContract scan_sgr := by
  intro s _ _
  have hoff : (s.takeWhile (fun c => c != 27)).length ≤ s.length :=
    (List.takeWhile_sublist _).length_le
  unfold scan_sgr
  simp only
  by_cases hr : s.drop (s.takeWhile (fun c => c != 27)).length = []
  · rw [if_pos hr]
    simp
  · rw [if_neg hr]
    have hpos : 0 < (s.drop (s.takeWhile (fun c => c != 27)).length).length :=
      List.length_pos.mpr hr
    have hl : (s.drop (s.takeWhile (fun c => c != 27)).length).length
        = s.length - (s.takeWhile (fun c => c != 27)).length := List.length_drop _ _
    simp only
    constructor
    · omega
    · intro h0
      omega

/-- C19: for a NUL-terminated hook output `s` and a scanner that obeys the
contract, the scanner splits `s` as `p0 e1 p1 ... ek pk` and the loop of
`filter_prompt` ends whenever it is allowed `k + 1` iterations or more: it
runs at most `k + 1` times and stops with the cursor on the terminator, the
"none remaining" answer being an ordinary way out. -/
theorem filter_prompt_loop_terminates (scan : List Nat → Nat × Nat) (s tail : List Nat)
    (hc : ScannerContract scan) (hs : NoNul s) (htail : tail.headD 0 = 0) :
    ∃ (segs : List (List Nat × List Nat)) (last : List Nat),
      assemble segs last = s ∧ SplitsAs scan segs last ∧
      ∀ extra : Nat, ∃ (out : List Nat) (iterations : Nat),
        filter_prompt_loop_counted scan (segs.length + 1 + extra) (s ++ tail) [] 0 0
          = some (out, s.length, iterations) ∧
        iterations ≤ segs.length + 1 ∧
        (s ++ tail).getD s.length 0 = 0 ∧
        filter_prompt_loop scan (segs.length + 1 + extra) (s ++ tail) [] 0 = some out := by
  obtain ⟨segs, last, hasm, hsp⟩ := exists_split scan hc s.length s (le_refl _) hs
  refine ⟨segs, last, hasm, hsp, fun extra => ?_⟩
  have hs2 : NoNul (assemble segs last) := by rw [hasm]; exact hs
  have h := filter_prompt_loop_counted_spec scan last tail htail segs [] [] extra 0
    (fun _ hx => absurd hx (List.not_mem_nil _)) hs2 hsp
  simp only [hasm, List.nil_append, List.take_nil, List.length_nil, Nat.zero_add] at h
  have hp := filter_prompt_loop_counted_fst scan (segs.length + 1 + extra) (s ++ tail) [] 0 0
  rw [h] at hp
  refine ⟨_, _, h, ?_, ?_, hp.symm⟩
  · split <;> omega
  · rw [getD_end _ _ _ rfl, htail]

/-- C19, witness: the hook output `"\x1b[32mOK\x1b[0m "` and the example
scanner. -/
theorem filter_prompt_loop_terminates_witness :
    ∃ (segs : List (List Nat × List Nat)) (last : List Nat),
      assemble segs last = [27, 91, 51, 50, 109, 79, 75, 27, 91, 48, 109, 32] ∧
      SplitsAs scan_sgr segs last ∧
      ∀ extra : Nat, ∃ (out : List Nat) (iterations : Nat),
        filter_prompt_loop_counted scan_sgr (segs.length + 1 + extra)
            ([27, 91, 51, 50, 109, 79, 75, 27, 91, 48, 109, 32] ++ []) [] 0 0
          = some (out, [27, 91, 51, 50, 109, 79, 75, 27, 91, 48, 109, 32].length, iterations) ∧
        iterations ≤ segs.length + 1 ∧
        ([27, 91, 51, 50, 109, 79, 75, 27, 91, 48, 109, 32] ++ []).getD
          [27, 91, 51, 50, 109, 79, 75, 27, 91, 48, 109, 32].length 0 = 0 ∧
        filter_prompt_loop scan_sgr (segs.length + 1 + extra)
            ([27, 91, 51, 50, 109, 79, 75, 27, 91, 48, 109, 32] ++ []) [] 0 = some out :=
  filter_prompt_loop_terminates scan_sgr [27, 91, 51, 50, 109, 79, 75, 27, 91, 48, 109, 32] []
    scan_sgr_contract (by decide) rfl

/-! ### No backspace survives -/

theorem foldl_stack_step_no_bs_out (xs : List Nat) :
    ∀ stk : List Nat, BS ∉ stk → BS ∉ xs.foldl stack_step stk := by
  induction xs with
  | nil => intro stk h; exact h
  | cons c xs ih =>
    intro stk h
    rw [List.foldl_cons]
    apply ih
    unfold stack_step
    by_cases hb : c = BS
    · rw [if_pos hb]
      exact fun hm => h ((List.dropLast_sublist stk).subset hm)
    · rw [if_neg hb]
      intro hm
      rcases List.mem_append.mp hm with h1 | h1
      · exact h h1
      · simp at h1
        exact hb h1.symm

theorem stack_fold_no_bs (xs : List Nat) : BS ∉ stack_fold xs :=
  foldl_stack_step_no_bs_out xs [] (List.not_mem_nil _)

/-- A pointer at or beyond the end of the memory reads NUL at once. -/
theorem parse_backspaces_beyond (mem : List Nat) (prompt : Nat) (n : Int)
    (h : mem.length ≤ prompt) : parse_backspaces mem prompt n = (mem, 0) := by
  have h0 : mem.getD prompt 0 = 0 := by
    rw [List.getD_eq_getElem?_getD, List.getElem?_eq_none h]
    rfl
  unfold parse_backspaces
  cases n.toNat with
  | zero =>
    rw [parse_backspaces_loop]
    simp
  | succ k =>
    rw [parse_backspaces_loop, if_pos h0]
    simp

theorem drop_left_eq (a b : List Nat) (k : Nat) (h : a.length = k) : (a ++ b).drop k = b := by
  subst h
  exact List.drop_left _ _

/-- The bytes that `parse_backspaces` leaves in front, for any memory, any
pointer and any `n`, hold no backspace. -/
theorem parse_backspaces_no_bs (mem : List Nat) (prompt : Nat) (n : Int) :
    BS ∉ ((parse_backspaces mem prompt n).1.drop prompt).take
      (parse_backspaces mem prompt n).2.toNat := by
  by_cases h : mem.length ≤ prompt
  · rw [parse_backspaces_beyond mem prompt n h]
    simp
  · have hl : (mem.take prompt).length = prompt := by
      rw [List.length_take]
      omega
    obtain ⟨gap, post, _, _, heq⟩ := parse_backspaces_eq (mem.take prompt) (mem.drop prompt) n
    rw [List.take_append_drop, hl] at heq
    rw [heq]
    rw [drop_left_eq _ _ _ hl]
    simp only [Int.toNat_ofNat, List.take_left]
    exact stack_fold_no_bs _

theorem cstr_subset (d : List Nat) (c : Nat) (h : c ∈ cstr d 0) : c ∈ d := by
  unfold cstr at h
  rw [List.drop_zero] at h
  exact (List.takeWhile_sublist _).subset h

theorem str_cat_n_no_bs (out mem : List Nat) (p : Nat) (m : Int) (hout : BS ∉ out)
    (hpiece : BS ∉ (mem.drop p).take m.toNat) : BS ∉ str_cat_n out mem p buf_size m := by
  unfold str_cat_n
  intro hm
  rcases List.mem_append.mp hm with h1 | h1
  · exact hout (cstr_subset _ _ h1)
  · exact hpiece ((List.take_sublist _ _).subset h1)

theorem str_cat_tag_no_bs (out : List Nat) (i : Nat) (hout : BS ∉ out) :
    BS ∉ str_cat out (tags.getD i []) 0 buf_size := by
  unfold str_cat
  intro hm
  rcases List.mem_append.mp hm with h1 | h1
  · exact hout (cstr_subset _ _ h1)
  · have h2 := cstr_subset _ _ ((List.take_sublist _ _).subset h1)
    have h3 : ∀ j : Nat, BS ∉ tags.getD j [] := by
      intro j
      match j with
      | 0 => decide
      | 1 => decide
      | _ + 2 => simp [tags]
    exact h3 i h2

/-- Whatever the scanner does, the loop of `filter_prompt` never puts a
backspace in the output. -/
theorem filter_prompt_loop_no_bs (scan : List Nat → Nat × Nat) :
    ∀ (fuel : Nat) (lua out : List Nat) (next : Nat) (res : List Nat),
      BS ∉ out → filter_prompt_loop scan fuel lua out next = some res → BS ∉ res := by
  intro fuel
  induction fuel with
  | zero =>
    intro lua out next res hout h
    rw [filter_prompt_loop] at h
    by_cases h0 : lua.getD next 0 = 0
    · rw [if_pos h0] at h
      cases h
      exact hout
    · rw [if_neg h0] at h
      cases h
  | succ fuel ih =>
    intro lua out next res hout h
    rw [filter_prompt_loop] at h
    by_cases h0 : lua.getD next 0 = 0
    · rw [if_pos h0] at h
      cases h
      exact hout
    · rw [if_neg h0] at h
      simp only at h
      split at h
      · refine ih _ _ _ res ?_ h
        exact str_cat_tag_no_bs _ 1 (str_cat_n_no_bs _ _ _ _
          (str_cat_tag_no_bs _ 0 (str_cat_n_no_bs _ _ _ _ hout
            (parse_backspaces_no_bs _ _ _)))
          (parse_backspaces_no_bs _ _ _))
      · exact ih _ _ _ res (str_cat_n_no_bs _ _ _ _ hout (parse_backspaces_no_bs _ _ _)) h

/-- Any memory is a NUL-free string followed by a rest that is empty or
starts with NUL. -/
theorem memory_split (mem : List Nat) :
    ∃ tail : List Nat, mem = cstr mem 0 ++ tail ∧ tail.headD 0 = 0 := by
  refine ⟨mem.dropWhile (fun c => c != 0), ?_, ?_⟩
  · unfold cstr
    rw [List.drop_zero, List.takeWhile_append_dropWhile]
  · cases hd : mem.dropWhile (fun c => c != 0) with
    | nil => rfl
    | cons r rs =>
      have hne : mem.dropWhile (fun c => c != 0) ≠ [] := by simp [hd]
      have := List.head_dropWhile_not (fun c => c != 0) mem hne
      simp only [hd, List.head_cons] at this
      simpa using this

/-- C20: for every memory, pointer and `n`, the first `r` bytes that
`parse_backspaces` leaves hold no backspace; hence whatever `filter_prompt`
returns holds no backspace, for every raw prompt, hook, scanner and number
of iterations; and with a scanner that obeys the contract it does return a
string. -/
theorem resolved_output_no_backspace (mem : List Nat) (prompt : Nat) (n : Int)
    (hook : List Nat → Int → List Nat) (scan : List Nat → Nat × Nat) (in_prompt : List Nat) :
    BS ∉ ((parse_backspaces mem prompt n).1.drop prompt).take
      (parse_backspaces mem prompt n).2.toNat ∧
    (∀ (fuel : Nat) (out : List Nat),
      filter_prompt hook scan fuel in_prompt = some out → BS ∉ out) ∧
    (ScannerContract scan →
      ∃ (fuel : Nat) (out : List Nat),
        filter_prompt hook scan fuel in_prompt = some out ∧ BS ∉ out) := by
  have hpart : ∀ (fuel : Nat) (out : List Nat),
      filter_prompt hook scan fuel in_prompt = some out → BS ∉ out := by
    intro fuel out h
    unfold filter_prompt at h
    exact filter_prompt_loop_no_bs scan fuel _ [] 0 out (List.not_mem_nil _) h
  refine ⟨parse_backspaces_no_bs mem prompt n, hpart, fun hc => ?_⟩
  obtain ⟨tail, hmem, htail⟩ := memory_split (hook (str_cat [] in_prompt 0 buf_size) buf_size)
  obtain ⟨segs, last, hasm, hsp⟩ := exists_split scan hc _ _ (le_refl _)
    (cstr_noNul (hook (str_cat [] in_prompt 0 buf_size) buf_size) 0)
  have hs : NoNul (assemble segs last) := by
    rw [hasm]
    exact cstr_noNul _ _
  have h := filter_prompt_spec hook scan in_prompt segs last tail 0
    (by rw [hasm]; exact hmem) htail hs hsp
  exact ⟨_, _, h, hpart _ _ h⟩

/-- C20, witness: on `"ab\bc"` the two bytes left are `"ac"`, and the output
for the prompt `"O\b\bK\x1b[0\bm"` exists and holds no backspace. -/
theorem resolved_output_no_backspace_witness :
    BS ∉ ((parse_backspaces [97, 98, 8, 99] 0 4).1.drop 0).take
      (parse_backspaces [97, 98, 8, 99] 0 4).2.toNat ∧
    ∃ (fuel : Nat) (out : List Nat),
      filter_prompt hook_id scan_sgr fuel [79, 8, 8, 75, 27, 91, 48, 8, 109] = some out ∧
      BS ∉ out :=
  ⟨(resolved_output_no_backspace [97, 98, 8, 99] 0 4 hook_id scan_sgr
      [79, 8, 8, 75, 27, 91, 48, 8, 109]).1,
    (resolved_output_no_backspace [97, 98, 8, 99] 0 4 hook_id scan_sgr
      [79, 8, 8, 75, 27, 91, 48, 8, 109]).2.2 scan_sgr_contract⟩

/-! ### Hook failure -/

end Clink
